import Mathlib

/-!
# Dense linear-algebra kernels of `pyamg/multigridtools/linalg.h`

A shallow embedding of the scalar helpers, the vector kernels `dot_prod` and
`axpy`, the dense multiply `gemm` and the LAPACK bridge `svd_solve`, together
with theorems about them.

Modelling conventions.

* A C array argument is a pointer to a buffer.  Buffers live in a `Heap`: a
  map from buffer identifiers to their contents.  Two arguments name the same
  buffer exactly when they are the same identifier, so aliasing of arguments
  is expressible.  Every read and every write is bounds checked; an access
  outside the buffer is undefined behaviour in C and yields `none` here.
* The template index type `I` is instantiated with unbounded non-negative
  integers (`Nat`), so overflow of a counter is not modelled; the template
  scalar type `T` is any type carrying the operations the body uses (`0`, `+`,
  `*`, and the overloaded `conjugate`).
* `float` and `double` are idealised as an exact commutative ring `R`; rounding
  is not modelled.
* `svd_solve` takes the external routine as a parameter. The routine is run
  only through `Gelss.call`, which records each call as it runs it; what is
  sent to `std::cerr` and `std::cout` is recorded too. The `int` arguments of
  `svd_solve` are unbounded integers (`Int`), since it does no arithmetic on
  them.
-/

namespace Linalg

/-! ## Memory model -/

/-- A pointer argument: the identifier of the buffer it points to. -/
abbrev Ptr := Nat

/-- The heap maps every buffer identifier to the content of that buffer. -/
abbrev Heap (T : Type) := Ptr → List T

/-- Read `p[i]`; `none` when `i` is outside the buffer. -/
def Heap.read {T : Type} (h : Heap T) (p : Ptr) (i : Nat) : Option T :=
  (h p)[i]?

/-- Write `p[i] = v`; `none` when `i` is outside the buffer. -/
def Heap.write {T : Type} (h : Heap T) (p : Ptr) (i : Nat) (v : T) : Option (Heap T) :=
  if i < (h p).length then some (Function.update h p ((h p).set i v)) else none

/-- The statement `for (I i = 0; i < n; i++) body`, started with the loop
variable equal to `i` and `count` iterations still to run: the body is run for
`i`, `i+1`, ... in this order, and the loop stops as soon as the body is
undefined. `for (I i = 0; i < n; i++)` is `forLoop body n 0`. -/
def forLoop {σ : Type} (body : Nat → σ → Option σ) : (count : Nat) → (i : Nat) → σ → Option σ
  | 0, _, s => some s
  | count + 1, i, s => (body i s).bind (forLoop body count (i + 1))

/-! ## Scalar kinds -/

/-- The overloaded function `conjugate` of the source: one instance per
scalar kind. -/
class Conjugate (T : Type) where
  /-- The overload of `conjugate` at `T`. -/
  conjugate : T → T

export Conjugate (conjugate)

/-- Modelled from the spec: the complex scalar kinds `npy_cfloat_wrapper` and
`npy_cdouble_wrapper`, whose declaration (with its arithmetic operators) is not
part of the source file. A complex scalar is a pair of a real and an imaginary
component over the real kind `R`. -/
@[ext]
structure npy_complex_wrapper (R : Type) where
  /-- Real component. -/
  real : R
  /-- Imaginary component. -/
  imag : R
  deriving DecidableEq

namespace npy_complex_wrapper

variable {R : Type}

/-- Modelled from the spec: conversion of the real literal `0.0` to a complex
scalar. -/
instance [Zero R] : Zero (npy_complex_wrapper R) := ⟨⟨0, 0⟩⟩

/-- Modelled from the spec: componentwise complex addition. -/
instance [Add R] : Add (npy_complex_wrapper R) :=
  ⟨fun a b => ⟨a.real + b.real, a.imag + b.imag⟩⟩

/-- Modelled from the spec: complex multiplication on components. -/
instance [Add R] [Sub R] [Mul R] : Mul (npy_complex_wrapper R) :=
  ⟨fun a b => ⟨a.real * b.real - a.imag * b.imag, a.real * b.imag + a.imag * b.real⟩⟩

end npy_complex_wrapper

/-- The overloads `conjugate(const float&)` and `conjugate(const double&)`:
`return x`. -/
instance (priority := low) conjugateReal {R : Type} [CommRing R] : Conjugate R :=
  ⟨fun x => x⟩

/-- The overloads `conjugate(const npy_cfloat_wrapper&)` and
`conjugate(const npy_cdouble_wrapper&)`: `(x.real, -x.imag)`. -/
instance conjugateComplex {R : Type} [Neg R] : Conjugate (npy_complex_wrapper R) :=
  ⟨fun x => ⟨x.real, -x.imag⟩⟩

/-! ### The overloads `real`, `imag`, `mynorm` and `mynormsq`

The overloads at `float` and `double` are in the namespace `RealScalar`, the
overloads at the two complex kinds in the namespace `ComplexScalar`. -/

namespace RealScalar

/-- The overloads `real(const float&)` and `real(const double&)`: `return x`. -/
def real {R : Type} (x : R) : R := x

/-- The overloads `imag(const float&)` and `imag(const double&)`:
`return 0.0`. -/
def imag {R : Type} [Zero R] (_x : R) : R := 0

/-- The overloads `mynorm(const float&)` and `mynorm(const double&)`:
`return fabs(x)`, the absolute value. -/
def mynorm {R : Type} [LinearOrderedRing R] (x : R) : R := abs x

/-- The overloads `mynormsq(const float&)` and `mynormsq(const double&)`:
`return (x*x)`. -/
def mynormsq {R : Type} [Mul R] (x : R) : R := x * x

end RealScalar

namespace ComplexScalar

/-- The overloads `real(const npy_cfloat_wrapper&)` and
`real(const npy_cdouble_wrapper&)`: `return x.real`. -/
def real {R : Type} (x : npy_complex_wrapper R) : R := x.real

/-- The overloads `imag(const npy_cfloat_wrapper&)` and
`imag(const npy_cdouble_wrapper&)`: `return x.imag`. -/
def imag {R : Type} (x : npy_complex_wrapper R) : R := x.imag

/-- The overloads `mynorm(const npy_cfloat_wrapper&)` and
`mynorm(const npy_cdouble_wrapper&)`: `return sqrt(x.real*x.real + x.imag*x.imag)`.
The function `sqrt` of `<math.h>` is not part of the program: a parameter. -/
def mynorm {R : Type} [Add R] [Mul R] (sqrt : R → R) (x : npy_complex_wrapper R) : R :=
  sqrt (x.real * x.real + x.imag * x.imag)

/-- The overloads `mynormsq(const npy_cfloat_wrapper&)` and
`mynormsq(const npy_cdouble_wrapper&)`: `return (x.real*x.real + x.imag*x.imag)`. -/
def mynormsq {R : Type} [Add R] [Mul R] (x : npy_complex_wrapper R) : R :=
  x.real * x.real + x.imag * x.imag

end ComplexScalar

/-- Modelled from the spec: what `sqrt` of `<math.h>` computes over the reals
(exact arithmetic). On a non-negative argument it returns the non-negative
square root. -/
def ExactSqrt {R : Type} [LinearOrderedRing R] (sqrt : R → R) : Prop :=
  ∀ a : R, 0 ≤ a → 0 ≤ sqrt a ∧ sqrt a * sqrt a = a

/-! ## Vector kernels -/

/-- The function `dot_prod(x, y, n)`:
`T sum = 0.0; for (i = 0; i < n; i++) sum += conjugate(x[i])*y[i]; return sum;` -/
def dot_prod {T : Type} [Zero T] [Add T] [Mul T] [Conjugate T]
    (h : Heap T) (x y : Ptr) (n : Nat) : Option T :=
  forLoop (fun i sum => do
      let xi ← h.read x i
      let yi ← h.read y i
      pure (sum + conjugate xi * yi))
    n 0 (0 : T)

/-- The function `axpy(x, y, alpha, n)`:
`for (i = 0; i < n; i++) x[i] += alpha*y[i];` -/
def axpy {T : Type} [Add T] [Mul T]
    (h : Heap T) (x y : Ptr) (alpha : T) (n : Nat) : Option (Heap T) :=
  forLoop (fun i h => do
      let xi ← h.read x i
      let yi ← h.read y i
      h.write x i (xi + alpha * yi))
    n 0 h

/-! ## Dense multiply -/

/-- The local variables of `gemm` (`s_counter`, `a_counter`, `b_counter`,
`a_start`) together with the heap. -/
structure GemmState (T : Type) where
  /-- The heap. -/
  mem : Heap T
  /-- Local `s_counter`. -/
  s_counter : Nat
  /-- Local `a_counter`. -/
  a_counter : Nat
  /-- Local `b_counter`. -/
  b_counter : Nat
  /-- Local `a_start`. -/
  a_start : Nat

section gemm
variable {T : Type} [Zero T] [Add T] [Mul T]

/-- Body of the innermost loop of `gemm` (the same statement in both branches):
`Sx[s_counter] += Ax[a_counter]*Bx[b_counter]; a_counter++; b_counter++;` -/
def gemm_k_body (Ax Bx Sx : Ptr) (_k : Nat) (st : GemmState T) : Option (GemmState T) := do
  let s ← st.mem.read Sx st.s_counter
  let a ← st.mem.read Ax st.a_counter
  let b ← st.mem.read Bx st.b_counter
  let mem ← st.mem.write Sx st.s_counter (s + a * b)
  pure ⟨mem, st.s_counter, st.a_counter + 1, st.b_counter + 1, st.a_start⟩

/-- Body of the `j` loop in the branch `Strans == 'T'`:
`Sx[s_counter] = 0.0; a_counter = a_start; for (k = 0; k < Brows; k++) ...;
s_counter+=Scols;` -/
def gemm_T_j_body (Ax Bx Sx : Ptr) (Brows Scols : Nat) (_j : Nat) (st : GemmState T) :
    Option (GemmState T) := do
  let mem ← st.mem.write Sx st.s_counter 0
  let st : GemmState T := ⟨mem, st.s_counter, st.a_start, st.b_counter, st.a_start⟩
  let st ← forLoop (gemm_k_body Ax Bx Sx) Brows 0 st
  pure ⟨st.mem, st.s_counter + Scols, st.a_counter, st.b_counter, st.a_start⟩

/-- Body of the `i` loop in the branch `Strans == 'T'`:
`s_counter = i; b_counter = 0; for (j = 0; j < Bcols; j++) ...; a_start += Acols;` -/
def gemm_T_i_body (Ax : Ptr) (Acols : Nat) (Bx : Ptr) (Brows Bcols : Nat) (Sx : Ptr)
    (Scols : Nat) (i : Nat) (st : GemmState T) : Option (GemmState T) := do
  let st : GemmState T := ⟨st.mem, i, st.a_counter, 0, st.a_start⟩
  let st ← forLoop (gemm_T_j_body Ax Bx Sx Brows Scols) Bcols 0 st
  pure ⟨st.mem, st.s_counter, st.a_counter, st.b_counter, st.a_start + Acols⟩

/-- Body of the `j` loop in the branch `Strans == 'F'`:
`Sx[s_counter] = 0.0; a_counter = a_start; for (k = 0; k < Brows; k++) ...;
s_counter++;` -/
def gemm_F_j_body (Ax Bx Sx : Ptr) (Brows : Nat) (_j : Nat) (st : GemmState T) :
    Option (GemmState T) := do
  let mem ← st.mem.write Sx st.s_counter 0
  let st : GemmState T := ⟨mem, st.s_counter, st.a_start, st.b_counter, st.a_start⟩
  let st ← forLoop (gemm_k_body Ax Bx Sx) Brows 0 st
  pure ⟨st.mem, st.s_counter + 1, st.a_counter, st.b_counter, st.a_start⟩

/-- Body of the `i` loop in the branch `Strans == 'F'`:
`b_counter = 0; for (j = 0; j < Bcols; j++) ...; a_start += Acols;` -/
def gemm_F_i_body (Ax : Ptr) (Acols : Nat) (Bx : Ptr) (Brows Bcols : Nat) (Sx : Ptr)
    (_i : Nat) (st : GemmState T) : Option (GemmState T) := do
  let st : GemmState T := ⟨st.mem, st.s_counter, st.a_counter, 0, st.a_start⟩
  let st ← forLoop (gemm_F_j_body Ax Bx Sx Brows) Bcols 0 st
  pure ⟨st.mem, st.s_counter, st.a_counter, st.b_counter, st.a_start + Acols⟩

set_option linter.unusedVariables false in
/-- The function `gemm`: the heap after the call, `none` if an access leaves
its buffer. The parameters `Atrans`, `Btrans` and `Srows` are accepted and
never read; `Scols` is read only in the branch `Strans == 'T'`. -/
def gemm (h : Heap T) (Ax : Ptr) (Arows Acols : Nat) (Atrans : Char)
    (Bx : Ptr) (Brows Bcols : Nat) (Btrans : Char)
    (Sx : Ptr) (Srows Scols : Nat) (Strans : Char) : Option (Heap T) :=
  if Strans = 'T' then
    (forLoop (gemm_T_i_body Ax Acols Bx Brows Bcols Sx Scols) Arows 0 ⟨h, 0, 0, 0, 0⟩).map
      GemmState.mem
  else if Strans = 'F' then
    (forLoop (gemm_F_i_body Ax Acols Bx Brows Bcols Sx) Arows 0 ⟨h, 0, 0, 0, 0⟩).map
      GemmState.mem
  else
    some h

end gemm

/-! ## Least squares through the external routine -/

/-- One item sent to an output stream with `<<`. -/
inductive StreamItem where
  /-- A string literal. -/
  | str (s : String)
  /-- An `int`. -/
  | int (n : Int)
  /-- A character. -/
  | chr (c : Char)
  deriving DecidableEq

/-- The input arguments of one call of `dgelss_` / `sgelss_`, in the order of
the declaration (`RANK` and `INFO` are outputs). -/
structure GelssArgs (T : Type) where
  /-- Argument 1. -/
  M : Int
  /-- Argument 2. -/
  N : Int
  /-- Argument 3. -/
  NRHS : Int
  /-- Argument 4. -/
  A : Ptr
  /-- Argument 5. -/
  LDA : Int
  /-- Argument 6. -/
  B : Ptr
  /-- Argument 7. -/
  LDB : Int
  /-- Argument 8. -/
  S : Ptr
  /-- Argument 9. -/
  RCOND : T
  /-- Argument 11. -/
  WORK : Ptr
  /-- Argument 12. -/
  LWORK : Int

/-- What a call of the external routine leaves behind: the heap and the two
output arguments. -/
structure GelssOut (T : Type) where
  /-- The heap after the call. -/
  mem : Heap T
  /-- Output argument 10. -/
  RANK : Int
  /-- Output argument 13. -/
  INFO : Int

/-- The external routine (`dgelss_` or `sgelss_`), which is not part of the
program: a parameter of `svd_solve`. -/
abbrev Gelss (T : Type) := Heap T → GelssArgs T → GelssOut T

/-- The heap together with the record of the calls made to the external
routine so far. -/
structure ExternState (T : Type) where
  /-- The heap. -/
  mem : Heap T
  /-- The calls made so far, in order. -/
  calls : List (GelssArgs T)

/-- What a call of the external routine hands back to its caller: the state
after it and the two output arguments, the locals `RANK` and `INFO`. -/
structure GelssReturn (T : Type) where
  /-- The heap and the record of calls after the call. -/
  state : ExternState T
  /-- The local `RANK` after the call. -/
  RANK : Int
  /-- The local `INFO` after the call. -/
  INFO : Int

/-- One call statement `dgelss_(...)` or `sgelss_(...)`: the routine `g` runs
on the current heap with the arguments `a`, and the call is added to the
record. The routine is never run in any other way, so the record holds the
calls made, no more and no fewer. -/
def Gelss.call {T : Type} (g : Gelss T) (s : ExternState T) (a : GelssArgs T) :
    GelssReturn T :=
  ⟨⟨(g s.mem a).mem, s.calls ++ [a]⟩, (g s.mem a).RANK, (g s.mem a).INFO⟩

/-- The observable effect of a call of `svd_solve`. -/
structure SvdSolveResult (T : Type) where
  /-- The heap after the call. -/
  mem : Heap T
  /-- The calls made to the external routine, in order. -/
  calls : List (GelssArgs T)
  /-- What was sent to `std::cerr`. -/
  cerr : List StreamItem
  /-- What was sent to `std::cout`. -/
  cout : List StreamItem

/-- The function `svd_solve(double * Ax, int Arows, int Acols, double * Bx,
int Bcols, double * Sx, double * x, int xdim)`. -/
def svd_solve_double {T : Type} [One T] [Neg T] (dgelss_ : Gelss T) (h : Heap T)
    (Ax : Ptr) (Arows Acols : Int) (Bx : Ptr) (Bcols : Int) (Sx x : Ptr) (xdim : Int) :
    SvdSolveResult T :=
  let RCOND : T := -1
  let r := dgelss_.call ⟨h, []⟩
    ⟨Arows, Acols, Bcols, Ax, Arows, Bx, Acols, Sx, RCOND, x, xdim⟩
  if r.INFO ≠ 0 then
    ⟨r.state.mem, r.state.calls,
      [.str "svd_solve failed with dgelss giving flag: ", .int r.INFO, .chr (Char.ofNat 10)],
      []⟩
  else
    ⟨r.state.mem, r.state.calls, [], []⟩

/-- The function `svd_solve(float * Ax, int Arows, int Acols, float * Bx,
int Bcols, float * Sx, float * x, int xdim)`. -/
def svd_solve_float {T : Type} [One T] [Neg T] (sgelss_ : Gelss T) (h : Heap T)
    (Ax : Ptr) (Arows Acols : Int) (Bx : Ptr) (Bcols : Int) (Sx x : Ptr) (xdim : Int) :
    SvdSolveResult T :=
  let RCOND : T := -1
  let r := sgelss_.call ⟨h, []⟩
    ⟨Arows, Acols, Bcols, Ax, Arows, Bx, Acols, Sx, RCOND, x, xdim⟩
  if r.INFO ≠ 0 then
    ⟨r.state.mem, r.state.calls, [],
      [.str "svd_solve failed with sgelss giving flag: ", .int r.INFO, .chr (Char.ofNat 10)]⟩
  else
    ⟨r.state.mem, r.state.calls, [], []⟩

/-- Modelled from the spec: the argument checks of the external routine, which
is not part of the program. The position (counted from 1) of the first
argument with an illegal value, if any: `M`, `N` and `NRHS` must not be
negative, `LDA` must be at least `max(1, M)` and `LDB` at least
`max(1, M, N)`. -/
def gelss_illegal_argument {T : Type} (a : GelssArgs T) : Option Nat :=
  if a.M < 0 then some 1
  else if a.N < 0 then some 2
  else if a.NRHS < 0 then some 3
  else if a.LDA < max 1 a.M then some 5
  else if a.LDB < max 1 (max a.M a.N) then some 7
  else none

/-- Modelled from the spec: the part of the contract of the external routine
about illegal arguments. When argument `i` is the first illegal one the routine
reports `INFO = -i` and returns without touching any buffer. -/
def Gelss.ChecksArguments {T : Type} (g : Gelss T) : Prop :=
  ∀ (h : Heap T) (a : GelssArgs T) (i : Nat),
    gelss_illegal_argument a = some i → (g h a).INFO = -(i : Int) ∧ (g h a).mem = h

/-- A stand-in for the external routine that performs the argument checks and
otherwise reports success without computing anything. -/
def gelss_checks_only {T : Type} : Gelss T := fun h a =>
  match gelss_illegal_argument a with
  | some i => ⟨h, 0, -(i : Int)⟩
  | none => ⟨h, 0, 0⟩

/-! ## Specification-side definitions -/

/-- Element `i` of buffer `p`, read as a value (`0` outside the buffer). -/
def Heap.elem {T : Type} [Zero T] (h : Heap T) (p : Ptr) (i : Nat) : T :=
  (h p).getD i 0

/-- The left-to-right fold the specification of `dot_prod` describes: one
accumulator, started at the additive identity, to which the terms
`conjugate(x_i) * y_i` are added for `i = 0, 1, ..., n-1` in this order. -/
def dot_prod_fold {T : Type} [Zero T] [Add T] [Mul T] [Conjugate T]
    (xs ys : List T) (n : Nat) : T :=
  (List.range n).foldl (fun acc i => acc + conjugate (xs.getD i 0) * ys.getD i 0) 0

/-- The value `gemm` accumulates for row `i` of `A` and column `j` of `B`:
`Σ_{k<Brows} Ax[i*Acols + k] * Bx[j*Brows + k]`. -/
def gemm_entry {T : Type} [Semiring T] (h : Heap T) (Ax : Ptr) (Acols : Nat) (Bx : Ptr)
    (Brows : Nat) (i j : Nat) : T :=
  ∑ k in Finset.range Brows, h.elem Ax (i * Acols + k) * h.elem Bx (j * Brows + k)

/-- Proof device: the body of the `j` loop with the increment of `s_counter`
as a parameter (`1` in the branch `'F'`, `Scols` in the branch `'T'`). -/
def gemm_j_body {T : Type} [Zero T] [Add T] [Mul T] (Ax Bx Sx : Ptr) (Brows step : Nat)
    (_j : Nat) (st : GemmState T) : Option (GemmState T) := do
  let mem ← st.mem.write Sx st.s_counter 0
  let st : GemmState T := ⟨mem, st.s_counter, st.a_start, st.b_counter, st.a_start⟩
  let st ← forLoop (gemm_k_body Ax Bx Sx) Brows 0 st
  pure ⟨st.mem, st.s_counter + step, st.a_counter, st.b_counter, st.a_start⟩

/-- Proof device: the heap `mem` reached from `h0` once `gemm` has produced the
entries of the rows before `i` and the first `c` entries of row `i`, the entry
`(i, j)` being stored at position `pos i j` of `Sx`. Only `Sx` has changed, it
has kept its length, the entries produced hold their value, and every other
position of `Sx` holds what it held in `h0`. -/
def GemmInv {T : Type} [Semiring T] (h0 : Heap T) (Ax : Ptr) (Acols : Nat) (Bx : Ptr)
    (Brows Bcols : Nat) (Sx : Ptr) (pos : Nat → Nat → Nat) (i c : Nat) (mem : Heap T) : Prop :=
  (∀ p, p ≠ Sx → mem p = h0 p)
  ∧ (mem Sx).length = (h0 Sx).length
  ∧ (∀ i1 j1, j1 < Bcols → (i1 < i ∨ (i1 = i ∧ j1 < c)) →
      (mem Sx)[pos i1 j1]? = some (gemm_entry h0 Ax Acols Bx Brows i1 j1))
  ∧ (∀ idx, (∀ i1 j1, j1 < Bcols → (i1 < i ∨ (i1 = i ∧ j1 < c)) → idx ≠ pos i1 j1) →
      (mem Sx)[idx]? = (h0 Sx)[idx]?)

/-- A heap for examples: buffer `p` holds the list at position `p` of `bufs`,
every other buffer is empty. -/
def heapOf {T : Type} (bufs : List (List T)) : Heap T :=
  fun p => bufs.getD p []

/-! ## Loops -/

theorem forLoop_succ_end {σ : Type} (body : Nat → σ → Option σ) (count : Nat) :
    ∀ (i : Nat) (s : σ),
      forLoop body (count + 1) i s = (forLoop body count i s).bind (body (i + count)) := by
  induction count with
  | zero => intro i s; simp [forLoop]
  | succ c ih =>
    intro i s
    rw [forLoop]
    cases hb : body i s with
    | none => simp [forLoop, hb]
    | some s1 =>
      simp only [Option.some_bind]
      rw [ih (i + 1) s1]
      have : i + 1 + c = i + (c + 1) := by omega
      rw [this]
      conv_rhs => rw [forLoop, hb]
      simp

/-! ## `dot_prod` -/

section dot_prod
variable {T : Type} [Zero T] [Add T] [Mul T] [Conjugate T]

theorem dot_prod_fold_succ (xs ys : List T) (n : Nat) :
    dot_prod_fold xs ys (n + 1)
      = dot_prod_fold xs ys n + conjugate (xs.getD n 0) * ys.getD n 0 := by
  simp [dot_prod_fold, List.range_succ, List.foldl_append]

theorem dot_prod_succ (h : Heap T) (x y : Ptr) (n : Nat) :
    dot_prod h x y (n + 1) = (dot_prod h x y n).bind (fun sum => do
      let xi ← h.read x n
      let yi ← h.read y n
      pure (sum + conjugate xi * yi)) := by
  simp [dot_prod, forLoop_succ_end]

/-- Complete description of `dot_prod`: it is defined exactly when both
buffers hold at least `n` elements, and its value is then the left fold. -/
theorem dot_prod_eq_ite (h : Heap T) (x y : Ptr) (n : Nat) :
    dot_prod h x y n
      = if n ≤ (h x).length ∧ n ≤ (h y).length then some (dot_prod_fold (h x) (h y) n)
        else none := by
  induction n with
  | zero => simp [dot_prod, forLoop, dot_prod_fold]
  | succ n ih =>
    rw [dot_prod_succ, ih]
    by_cases hx : n + 1 ≤ (h x).length
    · by_cases hy : n + 1 ≤ (h y).length
      · have hx0 : n ≤ (h x).length := by omega
        have hy0 : n ≤ (h y).length := by omega
        have hx1 : n < (h x).length := by omega
        have hy1 : n < (h y).length := by omega
        simp [hx, hy, hx0, hy0, Heap.read, List.getElem?_eq_getElem hx1,
          List.getElem?_eq_getElem hy1, dot_prod_fold_succ, List.getD_eq_getElem _ _ hx1,
          List.getD_eq_getElem _ _ hy1]
      · have hy1 : (h y).length ≤ n := by omega
        by_cases h0 : n ≤ (h x).length ∧ n ≤ (h y).length
        · simp [h0, hy, Heap.read, List.getElem?_eq_none hy1]
        · simp [h0, hy]
    · have hx1 : (h x).length ≤ n := by omega
      by_cases h0 : n ≤ (h x).length ∧ n ≤ (h y).length
      · simp [h0, hx, Heap.read, List.getElem?_eq_none hx1]
      · simp [h0, hx]

end dot_prod

/-! ### Claims about `dot_prod` -/

/-- C2: for real vectors `x`, `y` holding at least `n` elements, `dot_prod(x, y, n)`
is the ordinary inner product `Σ_{i<n} x_i * y_i` (exact arithmetic; `conjugate`
is the identity on the real kinds). -/
theorem dot_prod_real {R : Type} [CommRing R] (h : Heap R) (x y : Ptr) (n : Nat)
    (hx : n ≤ (h x).length) (hy : n ≤ (h y).length) :
    dot_prod h x y n = some (∑ i in Finset.range n, h.elem x i * h.elem y i) := by
  rw [dot_prod_eq_ite, if_pos ⟨hx, hy⟩]
  congr 1
  clear hx hy
  induction n with
  | zero => simp [dot_prod_fold]
  | succ n ih => rw [dot_prod_fold_succ, ih, Finset.sum_range_succ]; rfl

/-- C2, the example of the specification: `x=[1,2,3]`, `y=[4,5,6]`, `n=3`
gives `32`. -/
theorem dot_prod_real_witness :
    dot_prod (heapOf [[1, 2, 3], [4, 5, 6], ([] : List Int)]) 0 1 3 = some 32 :=
  (dot_prod_real (heapOf [[1, 2, 3], [4, 5, 6], ([] : List Int)]) 0 1 3 (by decide) (by decide)).trans
    (by simp [Finset.sum_range_succ, Heap.elem, heapOf])

theorem npy_complex_wrapper.conjugate_zero {R : Type} [CommRing R] :
    conjugate (0 : npy_complex_wrapper R) = 0 := by
  show (⟨0, -0⟩ : npy_complex_wrapper R) = ⟨0, 0⟩
  simp

theorem npy_complex_wrapper.conjugate_add {R : Type} [CommRing R]
    (a b : npy_complex_wrapper R) : conjugate (a + b) = conjugate a + conjugate b := by
  show (⟨a.real + b.real, -(a.imag + b.imag)⟩ : npy_complex_wrapper R)
    = ⟨a.real + b.real, -a.imag + -b.imag⟩
  congr 1
  ring

theorem npy_complex_wrapper.conjugate_conjugate_mul {R : Type} [CommRing R]
    (a b : npy_complex_wrapper R) : conjugate (conjugate a * b) = conjugate b * a := by
  show (⟨a.real * b.real - -a.imag * b.imag, -(a.real * b.imag + -a.imag * b.real)⟩ :
      npy_complex_wrapper R)
    = ⟨b.real * a.real - -b.imag * a.imag, b.real * a.imag + -b.imag * a.real⟩
  congr 1 <;> ring

theorem dot_prod_fold_conjugate {R : Type} [CommRing R] (xs ys : List (npy_complex_wrapper R))
    (n : Nat) : dot_prod_fold xs ys n = conjugate (dot_prod_fold ys xs n) := by
  induction n with
  | zero =>
    simp only [dot_prod_fold, List.range_zero, List.foldl_nil]
    exact npy_complex_wrapper.conjugate_zero.symm
  | succ n ih =>
    rw [dot_prod_fold_succ, dot_prod_fold_succ, npy_complex_wrapper.conjugate_add,
      npy_complex_wrapper.conjugate_conjugate_mul, ← ih]

/-- C3: Hermitian symmetry. For complex vectors (pairs of a real and an
imaginary component with exact arithmetic), `dot_prod(x, y, n)` is the
conjugate of `dot_prod(y, x, n)`; the two calls are defined for the same
inputs. -/
theorem dot_prod_hermitian {R : Type} [CommRing R] (h : Heap (npy_complex_wrapper R))
    (x y : Ptr) (n : Nat) :
    dot_prod h x y n = (dot_prod h y x n).map conjugate := by
  rw [dot_prod_eq_ite, dot_prod_eq_ite]
  by_cases hb : n ≤ (h x).length ∧ n ≤ (h y).length
  · rw [if_pos hb, if_pos ⟨hb.2, hb.1⟩]
    simp only [Option.map_some']
    rw [← dot_prod_fold_conjugate]
  · have hb2 : ¬ (n ≤ (h y).length ∧ n ≤ (h x).length) := fun hc => hb ⟨hc.2, hc.1⟩
    rw [if_neg hb, if_neg hb2]
    rfl

/-- C9: `dot_prod` is a strict left-to-right fold. Over any scalar type with
`0`, `+`, `*` and `conjugate` (no law assumed), for buffers holding at least
`n` elements, `dot_prod(x, y, n)` is `List.foldl` over the indices `0..n-1` in
increasing order, started from `0`, of `acc + conjugate(x_i) * y_i`. -/
theorem dot_prod_is_foldl {T : Type} [Zero T] [Add T] [Mul T] [Conjugate T]
    (h : Heap T) (x y : Ptr) (n : Nat) (hx : n ≤ (h x).length) (hy : n ≤ (h y).length) :
    dot_prod h x y n
      = some ((List.range n).foldl (fun acc i => acc + conjugate (h.elem x i) * h.elem y i) 0) := by
  rw [dot_prod_eq_ite, if_pos ⟨hx, hy⟩]
  rfl

/-- C9 at a concrete input: the accumulation `((0 + 1*4) + 2*5) + 3*6`. -/
theorem dot_prod_is_foldl_witness :
    dot_prod (heapOf [[1, 2, 3], [4, 5, 6], ([] : List Int)]) 0 1 3
      = some (((0 + conjugate 1 * 4) + conjugate 2 * 5) + conjugate 3 * 6) :=
  (dot_prod_is_foldl (heapOf [[1, 2, 3], [4, 5, 6], ([] : List Int)]) 0 1 3
    (by decide) (by decide)).trans (by rfl)

/-! ## `axpy` -/

section axpy
variable {T : Type}

theorem axpy_succ [Add T] [Mul T] (h : Heap T) (x y : Ptr) (alpha : T) (n : Nat) :
    axpy h x y alpha (n + 1) = (axpy h x y alpha n).bind (fun h1 => do
      let xi ← h1.read x n
      let yi ← h1.read y n
      h1.write x n (xi + alpha * yi)) := by
  simp [axpy, forLoop_succ_end]

/-- Loop invariant of `axpy`, whether or not `x` and `y` are the same buffer:
after `n` iterations the first `n` elements of `x` have been updated from the
initial contents, and nothing else has changed. -/
theorem axpy_spec [Zero T] [Add T] [Mul T] (h : Heap T) (x y : Ptr) (alpha : T) (n : Nat)
    (hx : n ≤ (h x).length) (hy : n ≤ (h y).length) :
    ∃ h1, axpy h x y alpha n = some h1
      ∧ (∀ p, p ≠ x → h1 p = h p)
      ∧ (h1 x).length = (h x).length
      ∧ (∀ i, i < n → (h1 x)[i]? = some (h.elem x i + alpha * h.elem y i))
      ∧ (∀ i, n ≤ i → (h1 x)[i]? = (h x)[i]?) := by
  induction n with
  | zero => exact ⟨h, by simp [axpy, forLoop], fun _ _ => rfl, rfl, by simp, fun _ _ => rfl⟩
  | succ n ih =>
    obtain ⟨h1, he, hfr, hlen, hlo, hhi⟩ := ih (by omega) (by omega)
    have hxn : n < (h x).length := by omega
    have hyn : n < (h y).length := by omega
    have hrx : h1.read x n = some (h.elem x n) := by
      simp [Heap.read, Heap.elem, hhi n (Nat.le_refl n), List.getElem?_eq_getElem hxn,
        List.getD_eq_getElem _ _ hxn]
    have hry : h1.read y n = some (h.elem y n) := by
      by_cases hyx : y = x
      · subst hyx; exact hrx
      · simp [Heap.read, Heap.elem, hfr y hyx, List.getElem?_eq_getElem hyn,
          List.getD_eq_getElem _ _ hyn]
    have hw : n < (h1 x).length := by omega
    refine ⟨Function.update h1 x ((h1 x).set n (h.elem x n + alpha * h.elem y n)), ?_, ?_, ?_,
      ?_, ?_⟩
    · rw [axpy_succ, he]
      simp [hrx, hry, Heap.write, hw]
    · intro p hp
      rw [Function.update_noteq hp, hfr p hp]
    · simp [hlen]
    · intro i hi
      rw [Function.update_same]
      by_cases hin : i = n
      · subst hin
        exact List.getElem?_set_self hw
      · rw [List.getElem?_set_ne (Ne.symm hin)]
        exact hlo i (by omega)
    · intro i hi
      rw [Function.update_same, List.getElem?_set_ne (by omega)]
      exact hhi i (by omega)

end axpy

/-- C4: `axpy(x, y, alpha, n)` with `x` and `y` distinct buffers holding at
least `n` elements: the call is defined, afterwards `x_i = x_i(old) + alpha * y_i`
for every `i < n`, every `x_i` with `i >= n` is unchanged, and `y` (like every
buffer other than `x`) is unchanged. -/
theorem axpy_distinct {T : Type} [Zero T] [Add T] [Mul T] (h : Heap T) (x y : Ptr) (alpha : T)
    (n : Nat) (hxy : x ≠ y) (hx : n ≤ (h x).length) (hy : n ≤ (h y).length) :
    ∃ h1, axpy h x y alpha n = some h1
      ∧ (∀ i, i < n → (h1 x)[i]? = some (h.elem x i + alpha * h.elem y i))
      ∧ (∀ i, n ≤ i → (h1 x)[i]? = (h x)[i]?)
      ∧ h1 y = h y
      ∧ (∀ p, p ≠ x → h1 p = h p) := by
  obtain ⟨h1, he, hfr, _, hlo, hhi⟩ := axpy_spec h x y alpha n hx hy
  exact ⟨h1, he, hlo, hhi, hfr y (Ne.symm hxy), hfr⟩

/-- C4, the example of the specification: `x=[1,1,1]`, `y=[1,2,3]`, `alpha=2`,
`n=3` leaves `x=[3,5,7]` and `y=[1,2,3]`. -/
theorem axpy_distinct_witness :
    (∃ h1, axpy (heapOf [[1, 1, 1], [1, 2, 3], ([] : List Int)]) 0 1 2 3 = some h1
      ∧ (∀ i, i < 3 → (h1 0)[i]? = some ((heapOf [[1, 1, 1], [1, 2, 3], ([] : List Int)]).elem 0 i
            + 2 * (heapOf [[1, 1, 1], [1, 2, 3], ([] : List Int)]).elem 1 i))
      ∧ (∀ i, 3 ≤ i → (h1 0)[i]? = (heapOf [[1, 1, 1], [1, 2, 3], ([] : List Int)] 0)[i]?)
      ∧ h1 1 = heapOf [[1, 1, 1], [1, 2, 3], ([] : List Int)] 1
      ∧ (∀ p, p ≠ 0 → h1 p = heapOf [[1, 1, 1], [1, 2, 3], ([] : List Int)] p))
    ∧ (axpy (heapOf [[1, 1, 1], [1, 2, 3], ([] : List Int)]) 0 1 2 3).map (fun h1 => (h1 0, h1 1))
        = some ([3, 5, 7], [1, 2, 3]) :=
  ⟨axpy_distinct (heapOf [[1, 1, 1], [1, 2, 3], ([] : List Int)]) 0 1 2 3 (by decide) (by decide)
    (by decide), by decide⟩

/-- C10: `axpy` with `x` and `y` the same buffer holding at least `n`
elements: the call is defined, afterwards `x_i = x_i(old) + alpha * x_i(old)`
for every `i < n`, and every `x_i` with `i >= n` is unchanged (as is every
other buffer). -/
theorem axpy_aliased {T : Type} [Zero T] [Add T] [Mul T] (h : Heap T) (x : Ptr) (alpha : T)
    (n : Nat) (hx : n ≤ (h x).length) :
    ∃ h1, axpy h x x alpha n = some h1
      ∧ (∀ i, i < n → (h1 x)[i]? = some (h.elem x i + alpha * h.elem x i))
      ∧ (∀ i, n ≤ i → (h1 x)[i]? = (h x)[i]?)
      ∧ (∀ p, p ≠ x → h1 p = h p) := by
  obtain ⟨h1, he, hfr, _, hlo, hhi⟩ := axpy_spec h x x alpha n hx hx
  exact ⟨h1, he, hlo, hhi, hfr⟩

/-- C10 at a concrete input: `x=[1,2,3,4]`, `alpha=2`, `n=3` leaves
`x=[3,6,9,4]`. -/
theorem axpy_aliased_witness :
    (∃ h1, axpy (heapOf [[1, 2, 3, 4], [], ([] : List Int)]) 0 0 2 3 = some h1
      ∧ (∀ i, i < 3 → (h1 0)[i]? = some ((heapOf [[1, 2, 3, 4], [], ([] : List Int)]).elem 0 i
            + 2 * (heapOf [[1, 2, 3, 4], [], ([] : List Int)]).elem 0 i))
      ∧ (∀ i, 3 ≤ i → (h1 0)[i]? = (heapOf [[1, 2, 3, 4], [], ([] : List Int)] 0)[i]?)
      ∧ (∀ p, p ≠ 0 → h1 p = heapOf [[1, 2, 3, 4], [], ([] : List Int)] p))
    ∧ (axpy (heapOf [[1, 2, 3, 4], [], ([] : List Int)]) 0 0 2 3).map (fun h1 => h1 0)
        = some [3, 6, 9, 4] :=
  ⟨axpy_aliased (heapOf [[1, 2, 3, 4], [], ([] : List Int)]) 0 2 3 (by decide), by decide⟩

/-! ## `gemm` -/

theorem list_set_getD_self {α : Type} (l : List α) (i : Nat) (d : α) (hi : i < l.length) :
    l.set i (l.getD i d) = l := by
  apply List.ext_getElem?
  intro j
  by_cases hij : i = j
  · subst hij
    rw [List.getElem?_set_self hi, List.getD_eq_getElem _ _ hi, List.getElem?_eq_getElem hi]
  · rw [List.getElem?_set_ne hij]

section gemm
variable {T : Type} [Semiring T]

theorem gemm_F_j_body_eq (Ax Bx Sx : Ptr) (Brows : Nat) :
    gemm_F_j_body (T := T) Ax Bx Sx Brows = gemm_j_body Ax Bx Sx Brows 1 := rfl

theorem gemm_T_j_body_eq (Ax Bx Sx : Ptr) (Brows Scols : Nat) :
    gemm_T_j_body (T := T) Ax Bx Sx Brows Scols = gemm_j_body Ax Bx Sx Brows Scols := rfl

/-- The innermost loop adds `r` products to `Sx[s_counter]`. -/
theorem gemm_k_loop (Ax Bx Sx : Ptr) (hA : Ax ≠ Sx) (hB : Bx ≠ Sx) (r : Nat) (i0 : Nat)
    (st : GemmState T) (hs : st.s_counter < (st.mem Sx).length)
    (ha : st.a_counter + r ≤ (st.mem Ax).length) (hb : st.b_counter + r ≤ (st.mem Bx).length) :
    forLoop (gemm_k_body Ax Bx Sx) r i0 st
      = some ⟨Function.update st.mem Sx ((st.mem Sx).set st.s_counter
            (st.mem.elem Sx st.s_counter + ∑ k in Finset.range r,
              st.mem.elem Ax (st.a_counter + k) * st.mem.elem Bx (st.b_counter + k))),
          st.s_counter, st.a_counter + r, st.b_counter + r, st.a_start⟩ := by
  induction r with
  | zero =>
    simp only [forLoop, Finset.range_zero, Finset.sum_empty, add_zero, Heap.elem]
    rw [list_set_getD_self _ _ _ hs, Function.update_eq_self]
  | succ r ih =>
    rw [forLoop_succ_end, ih (by omega) (by omega)]
    have har : st.a_counter + r < (st.mem Ax).length := by omega
    have hbr : st.b_counter + r < (st.mem Bx).length := by omega
    simp only [Option.some_bind, gemm_k_body, Heap.read, Heap.write, Function.update_same,
      Function.update_noteq hA, Function.update_noteq hB, List.getElem?_set_self hs,
      List.getElem?_eq_getElem har, List.getElem?_eq_getElem hbr, List.length_set, hs,
      if_true, Option.bind_eq_bind, Option.pure_def, Function.update_idem, List.set_set,
      Heap.elem, List.getD_eq_getElem _ _ har, List.getD_eq_getElem _ _ hbr,
      Finset.sum_range_succ, add_assoc]

/-- One iteration of the `j` loop stores one full sum at `Sx[s_counter]`. -/
theorem gemm_j_body_some (Ax Bx Sx : Ptr) (hA : Ax ≠ Sx) (hB : Bx ≠ Sx) (Brows step j : Nat)
    (st : GemmState T) (hs : st.s_counter < (st.mem Sx).length)
    (ha : st.a_start + Brows ≤ (st.mem Ax).length)
    (hb : st.b_counter + Brows ≤ (st.mem Bx).length) :
    gemm_j_body Ax Bx Sx Brows step j st
      = some ⟨Function.update st.mem Sx ((st.mem Sx).set st.s_counter
            (∑ k in Finset.range Brows,
              st.mem.elem Ax (st.a_start + k) * st.mem.elem Bx (st.b_counter + k))),
          st.s_counter + step, st.a_start + Brows, st.b_counter + Brows, st.a_start⟩ := by
  have hs1 : st.s_counter < ((Function.update st.mem Sx ((st.mem Sx).set st.s_counter 0)) Sx).length := by
    simp [hs]
  have ha1 : st.a_start + Brows
      ≤ ((Function.update st.mem Sx ((st.mem Sx).set st.s_counter 0)) Ax).length := by
    rw [Function.update_noteq hA]; exact ha
  have hb1 : st.b_counter + Brows
      ≤ ((Function.update st.mem Sx ((st.mem Sx).set st.s_counter 0)) Bx).length := by
    rw [Function.update_noteq hB]; exact hb
  have hk := gemm_k_loop Ax Bx Sx hA hB Brows 0
    ⟨Function.update st.mem Sx ((st.mem Sx).set st.s_counter 0), st.s_counter, st.a_start,
      st.b_counter, st.a_start⟩ hs1 ha1 hb1
  simp only [gemm_j_body, Heap.write, hs, if_true, Option.bind_eq_bind, Option.some_bind, hk,
    Option.pure_def, Heap.elem, Function.update_same, Function.update_noteq hA,
    Function.update_noteq hB, Function.update_idem, List.set_set]
  have h0 : ((st.mem Sx).set st.s_counter 0).getD st.s_counter 0 = 0 := by
    rw [List.getD_eq_getElem?_getD, List.getElem?_set_self hs]; rfl
  rw [h0, zero_add]

/-- The `j` loop of row `i`, run for `c` iterations from a state in which the
rows before `i` are done. -/
theorem gemm_j_loop (h0 : Heap T) (Ax : Ptr) (Acols : Nat) (Bx : Ptr) (Brows Bcols : Nat)
    (Sx : Ptr) (hA : Ax ≠ Sx) (hB : Bx ≠ Sx) (base : Nat → Nat) (step i : Nat)
    (hbound : ∀ j, j < Bcols → base i + j * step < (h0 Sx).length)
    (hfresh : ∀ i1 j1 j, j1 < Bcols → j < Bcols → (i1 < i ∨ (i1 = i ∧ j1 < j)) →
      base i1 + j1 * step ≠ base i + j * step)
    (hAlen : i * Acols + Brows ≤ (h0 Ax).length)
    (hBlen : ∀ j, j < Bcols → j * Brows + Brows ≤ (h0 Bx).length)
    (c : Nat) (hc : c ≤ Bcols) (st : GemmState T)
    (hinv : GemmInv h0 Ax Acols Bx Brows Bcols Sx (fun i j => base i + j * step) i 0 st.mem)
    (hs : st.s_counter = base i) (hb : st.b_counter = 0) (ha : st.a_start = i * Acols) :
    ∃ st1, forLoop (gemm_j_body Ax Bx Sx Brows step) c 0 st = some st1
      ∧ GemmInv h0 Ax Acols Bx Brows Bcols Sx (fun i j => base i + j * step) i c st1.mem
      ∧ st1.s_counter = base i + c * step ∧ st1.b_counter = c * Brows
      ∧ st1.a_start = i * Acols := by
  induction c with
  | zero => exact ⟨st, rfl, hinv, by simp [hs], by simp [hb], ha⟩
  | succ c ih =>
    obtain ⟨st1, he, ⟨hfr, hlen, hval, hold⟩, hs1, hb1, ha1⟩ := ih (by omega)
    have hcB : c < Bcols := by omega
    have hsl : st1.s_counter < (st1.mem Sx).length := by
      rw [hs1, hlen]; exact hbound c hcB
    have hal : st1.a_start + Brows ≤ (st1.mem Ax).length := by
      rw [ha1, hfr Ax hA]; exact hAlen
    have hbl : st1.b_counter + Brows ≤ (st1.mem Bx).length := by
      rw [hb1, hfr Bx hB]; exact hBlen c hcB
    refine ⟨⟨Function.update st1.mem Sx ((st1.mem Sx).set st1.s_counter
            (∑ k in Finset.range Brows,
              st1.mem.elem Ax (st1.a_start + k) * st1.mem.elem Bx (st1.b_counter + k))),
          st1.s_counter + step, st1.a_start + Brows, st1.b_counter + Brows, st1.a_start⟩,
      ?_, ⟨?_, ?_, ?_, ?_⟩, ?_, ?_, ?_⟩
    · rw [forLoop_succ_end, he, Option.some_bind]
      exact gemm_j_body_some Ax Bx Sx hA hB Brows step (0 + c) st1 hsl hal hbl
    · intro p hp
      show Function.update st1.mem Sx _ p = h0 p
      rw [Function.update_noteq hp]; exact hfr p hp
    · show (Function.update st1.mem Sx _ Sx).length = _
      rw [Function.update_same, List.length_set]; exact hlen
    · intro i1 j1 hj1 hlt
      show (Function.update st1.mem Sx _ Sx)[base i1 + j1 * step]? = _
      rw [Function.update_same]
      by_cases hnew : i1 = i ∧ j1 = c
      · obtain ⟨rfl, rfl⟩ := hnew
        rw [← hs1, List.getElem?_set_self hsl]
        simp only [gemm_entry, Heap.elem, ha1, hb1, hfr Ax hA, hfr Bx hB]
      · have hlt1 : i1 < i ∨ (i1 = i ∧ j1 < c) := by
          rcases hlt with h1 | ⟨h1, h2⟩
          · exact Or.inl h1
          · refine Or.inr ⟨h1, ?_⟩
            have : j1 ≠ c := fun hc1 => hnew ⟨h1, hc1⟩
            omega
        have hne : st1.s_counter ≠ base i1 + j1 * step := by
          rw [hs1]; exact Ne.symm (hfresh i1 j1 c hj1 hcB hlt1)
        rw [List.getElem?_set_ne hne]
        exact hval i1 j1 hj1 hlt1
    · intro idx hidx
      show (Function.update st1.mem Sx _ Sx)[idx]? = _
      rw [Function.update_same]
      have hne : st1.s_counter ≠ idx := by
        rw [hs1]; exact Ne.symm (hidx i c hcB (Or.inr ⟨rfl, Nat.lt_succ_self c⟩))
      rw [List.getElem?_set_ne hne]
      apply hold
      intro i1 j1 hj1 hlt
      apply hidx i1 j1 hj1
      rcases hlt with h1 | ⟨h1, h2⟩
      · exact Or.inl h1
      · exact Or.inr ⟨h1, by omega⟩
    · show st1.s_counter + step = _
      rw [hs1, Nat.succ_mul]; omega
    · show st1.b_counter + Brows = _
      rw [hb1, Nat.succ_mul]
    · exact ha1

/-- Finishing row `i` is the same as being about to start row `i + 1`. -/
theorem GemmInv_next_row (h0 : Heap T) (Ax : Ptr) (Acols : Nat) (Bx : Ptr) (Brows Bcols : Nat)
    (Sx : Ptr) (pos : Nat → Nat → Nat) (i : Nat) (mem : Heap T)
    (hinv : GemmInv h0 Ax Acols Bx Brows Bcols Sx pos i Bcols mem) :
    GemmInv h0 Ax Acols Bx Brows Bcols Sx pos (i + 1) 0 mem := by
  obtain ⟨hfr, hlen, hval, hold⟩ := hinv
  refine ⟨hfr, hlen, ?_, ?_⟩
  · intro i1 j1 hj1 hlt
    apply hval i1 j1 hj1
    rcases hlt with h1 | ⟨_, h2⟩
    · by_cases h : i1 < i
      · exact Or.inl h
      · exact Or.inr ⟨by omega, hj1⟩
    · omega
  · intro idx hidx
    apply hold
    intro i1 j1 hj1 hlt
    apply hidx i1 j1 hj1
    rcases hlt with h1 | ⟨h1, _⟩
    · exact Or.inl (by omega)
    · exact Or.inl (by omega)

/-- A whole row: the `j` loop run to completion from the start of row `i`. -/
theorem gemm_row (h0 : Heap T) (Ax : Ptr) (Arows Acols : Nat) (Bx : Ptr) (Brows Bcols : Nat)
    (Sx : Ptr) (hA : Ax ≠ Sx) (hB : Bx ≠ Sx) (base : Nat → Nat) (step : Nat)
    (hbound : ∀ i j, i < Arows → j < Bcols → base i + j * step < (h0 Sx).length)
    (hinj : ∀ i1 j1 i2 j2, i1 < Arows → i2 < Arows → j1 < Bcols → j2 < Bcols →
      base i1 + j1 * step = base i2 + j2 * step → i1 = i2 ∧ j1 = j2)
    (hAlen : ∀ i, i < Arows → i * Acols + Brows ≤ (h0 Ax).length)
    (hBlen : ∀ j, j < Bcols → j * Brows + Brows ≤ (h0 Bx).length)
    (i : Nat) (hi : i < Arows) (mem : Heap T) (ac ast : Nat)
    (hinv : GemmInv h0 Ax Acols Bx Brows Bcols Sx (fun i j => base i + j * step) i 0 mem)
    (ha : ast = i * Acols) :
    ∃ st1, forLoop (gemm_j_body Ax Bx Sx Brows step) Bcols 0 ⟨mem, base i, ac, 0, ast⟩ = some st1
      ∧ GemmInv h0 Ax Acols Bx Brows Bcols Sx (fun i j => base i + j * step) (i + 1) 0 st1.mem
      ∧ st1.s_counter = base i + Bcols * step ∧ st1.a_start = i * Acols := by
  have hfresh : ∀ i1 j1 j, j1 < Bcols → j < Bcols → (i1 < i ∨ (i1 = i ∧ j1 < j)) →
      base i1 + j1 * step ≠ base i + j * step := by
    intro i1 j1 j hj1 hj hlt heq
    have hi1 : i1 < Arows := by
      rcases hlt with h1 | ⟨h1, _⟩ <;> omega
    obtain ⟨e1, e2⟩ := hinj i1 j1 i j hi1 hi hj1 hj heq
    rcases hlt with h1 | ⟨_, h2⟩ <;> omega
  obtain ⟨st1, he, hinv1, hs1, _, ha1⟩ :=
    gemm_j_loop h0 Ax Acols Bx Brows Bcols Sx hA hB base step i (fun j hj => hbound i j hi hj)
      hfresh (hAlen i hi) hBlen Bcols (Nat.le_refl _) ⟨mem, base i, ac, 0, ast⟩ hinv rfl rfl ha
  exact ⟨st1, he, GemmInv_next_row h0 Ax Acols Bx Brows Bcols Sx _ i st1.mem hinv1, hs1, ha1⟩

theorem GemmInv_init (h0 : Heap T) (Ax : Ptr) (Acols : Nat) (Bx : Ptr) (Brows Bcols : Nat)
    (Sx : Ptr) (pos : Nat → Nat → Nat) :
    GemmInv h0 Ax Acols Bx Brows Bcols Sx pos 0 0 h0 := by
  refine ⟨fun _ _ => rfl, rfl, ?_, fun _ _ => rfl⟩
  intro i1 j1 _ hlt
  rcases hlt with h1 | ⟨_, h2⟩ <;> omega

/-- The `i` loop of the branch `'F'`, run for `c` rows. -/
theorem gemm_F_i_loop (h0 : Heap T) (Ax : Ptr) (Arows Acols : Nat) (Bx : Ptr)
    (Brows Bcols : Nat) (Sx : Ptr) (hA : Ax ≠ Sx) (hB : Bx ≠ Sx)
    (hbound : ∀ i j, i < Arows → j < Bcols → i * Bcols + j * 1 < (h0 Sx).length)
    (hinj : ∀ i1 j1 i2 j2, i1 < Arows → i2 < Arows → j1 < Bcols → j2 < Bcols →
      i1 * Bcols + j1 * 1 = i2 * Bcols + j2 * 1 → i1 = i2 ∧ j1 = j2)
    (hAlen : ∀ i, i < Arows → i * Acols + Brows ≤ (h0 Ax).length)
    (hBlen : ∀ j, j < Bcols → j * Brows + Brows ≤ (h0 Bx).length)
    (c : Nat) (hc : c ≤ Arows) :
    ∃ st1, forLoop (gemm_F_i_body Ax Acols Bx Brows Bcols Sx) c 0 ⟨h0, 0, 0, 0, 0⟩ = some st1
      ∧ GemmInv h0 Ax Acols Bx Brows Bcols Sx (fun i j => i * Bcols + j * 1) c 0 st1.mem
      ∧ st1.s_counter = c * Bcols ∧ st1.a_start = c * Acols := by
  induction c with
  | zero => exact ⟨_, rfl, GemmInv_init h0 Ax Acols Bx Brows Bcols Sx _, by simp, by simp⟩
  | succ c ih =>
    obtain ⟨st1, he, hinv, hs1, ha1⟩ := ih (by omega)
    obtain ⟨st2, he2, hinv2, hs2, ha2⟩ :=
      gemm_row h0 Ax Arows Acols Bx Brows Bcols Sx hA hB (fun i => i * Bcols) 1 hbound hinj
        hAlen hBlen c (by omega) st1.mem st1.a_counter st1.a_start hinv ha1
    refine ⟨⟨st2.mem, st2.s_counter, st2.a_counter, st2.b_counter, st2.a_start + Acols⟩, ?_,
      hinv2, ?_, ?_⟩
    · rw [forLoop_succ_end, he, Option.some_bind]
      simp only [gemm_F_i_body, gemm_F_j_body_eq, hs1, Option.bind_eq_bind, Option.pure_def]
      rw [he2]
      rfl
    · show st2.s_counter = _
      rw [hs2, Nat.succ_mul]; omega
    · show st2.a_start + Acols = _
      rw [ha2, Nat.succ_mul]

/-- The `i` loop of the branch `'T'`, run for `c` rows. -/
theorem gemm_T_i_loop (h0 : Heap T) (Ax : Ptr) (Arows Acols : Nat) (Bx : Ptr)
    (Brows Bcols : Nat) (Sx : Ptr) (Scols : Nat) (hA : Ax ≠ Sx) (hB : Bx ≠ Sx)
    (hbound : ∀ i j, i < Arows → j < Bcols → i + j * Scols < (h0 Sx).length)
    (hinj : ∀ i1 j1 i2 j2, i1 < Arows → i2 < Arows → j1 < Bcols → j2 < Bcols →
      i1 + j1 * Scols = i2 + j2 * Scols → i1 = i2 ∧ j1 = j2)
    (hAlen : ∀ i, i < Arows → i * Acols + Brows ≤ (h0 Ax).length)
    (hBlen : ∀ j, j < Bcols → j * Brows + Brows ≤ (h0 Bx).length)
    (c : Nat) (hc : c ≤ Arows) :
    ∃ st1, forLoop (gemm_T_i_body Ax Acols Bx Brows Bcols Sx Scols) c 0 ⟨h0, 0, 0, 0, 0⟩
        = some st1
      ∧ GemmInv h0 Ax Acols Bx Brows Bcols Sx (fun i j => i + j * Scols) c 0 st1.mem
      ∧ st1.a_start = c * Acols := by
  induction c with
  | zero => exact ⟨_, rfl, GemmInv_init h0 Ax Acols Bx Brows Bcols Sx _, by simp⟩
  | succ c ih =>
    obtain ⟨st1, he, hinv, ha1⟩ := ih (by omega)
    obtain ⟨st2, he2, hinv2, _, ha2⟩ :=
      gemm_row h0 Ax Arows Acols Bx Brows Bcols Sx hA hB (fun i => i) Scols hbound hinj
        hAlen hBlen c (by omega) st1.mem st1.a_counter st1.a_start hinv ha1
    refine ⟨⟨st2.mem, st2.s_counter, st2.a_counter, st2.b_counter, st2.a_start + Acols⟩, ?_,
      hinv2, ?_⟩
    · rw [forLoop_succ_end, he, Option.some_bind]
      simp only [gemm_T_i_body, gemm_T_j_body_eq, Nat.zero_add, Option.bind_eq_bind,
        Option.pure_def]
      rw [he2]
      rfl
    · show st2.a_start + Acols = _
      rw [ha2, Nat.succ_mul]

end gemm

theorem index_lt_mul (i n j m : Nat) (hi : i < n) (hj : j < m) : i * m + j < n * m := by
  have h1 : (i + 1) * m ≤ n * m := Nat.mul_le_mul_right m hi
  rw [Nat.succ_mul] at h1
  omega

theorem index_inj (m i1 j1 i2 j2 : Nat) (hj1 : j1 < m) (hj2 : j2 < m)
    (he : i1 * m + j1 = i2 * m + j2) : i1 = i2 ∧ j1 = j2 := by
  rcases Nat.lt_trichotomy i1 i2 with hlt | heq | hgt
  · have h1 : (i1 + 1) * m ≤ i2 * m := Nat.mul_le_mul_right m hlt
    rw [Nat.succ_mul] at h1
    omega
  · subst heq
    exact ⟨rfl, by omega⟩
  · have h1 : (i2 + 1) * m ≤ i1 * m := Nat.mul_le_mul_right m hgt
    rw [Nat.succ_mul] at h1
    omega

theorem gemm_A_rows_fit {T : Type} (h : Heap T) (Ax : Ptr) (Arows Acols Brows : Nat)
    (hconf : Brows = Acols) (hAx : Arows * Acols ≤ (h Ax).length) :
    ∀ i, i < Arows → i * Acols + Brows ≤ (h Ax).length := by
  intro i hi
  have h1 : (i + 1) * Acols ≤ Arows * Acols := Nat.mul_le_mul_right Acols hi
  rw [Nat.succ_mul] at h1
  omega

section gemm_branches
variable {T : Type} [Semiring T]

/-- The branch `Strans == 'F'` in general (no conformance assumed): when `Sx`
is neither `Ax` nor `Bx` and every access stays inside its buffer, the call
is defined, position `i*Bcols + j` of `Sx` holds the accumulated sum for
every `i < Arows`, `j < Bcols`, and nothing else has changed. -/
theorem gemm_F_spec (h : Heap T) (Ax : Ptr) (Arows Acols : Nat) (Atrans : Char) (Bx : Ptr)
    (Brows Bcols : Nat) (Btrans : Char) (Sx : Ptr) (Srows Scols : Nat)
    (hA : Ax ≠ Sx) (hB : Bx ≠ Sx)
    (hAlen : ∀ i, i < Arows → i * Acols + Brows ≤ (h Ax).length)
    (hBlen : Brows * Bcols ≤ (h Bx).length) (hSlen : Arows * Bcols ≤ (h Sx).length) :
    ∃ h1, gemm h Ax Arows Acols Atrans Bx Brows Bcols Btrans Sx Srows Scols 'F' = some h1
      ∧ GemmInv h Ax Acols Bx Brows Bcols Sx (fun i j => i * Bcols + j) Arows 0 h1 := by
  have hbound : ∀ i j, i < Arows → j < Bcols → i * Bcols + j * 1 < (h Sx).length := by
    intro i j hi hj
    have := index_lt_mul i Arows j Bcols hi hj
    omega
  have hinj : ∀ i1 j1 i2 j2, i1 < Arows → i2 < Arows → j1 < Bcols → j2 < Bcols →
      i1 * Bcols + j1 * 1 = i2 * Bcols + j2 * 1 → i1 = i2 ∧ j1 = j2 := by
    intro i1 j1 i2 j2 _ _ hj1 hj2 he
    exact index_inj Bcols i1 j1 i2 j2 hj1 hj2 (by omega)
  have hBlen1 : ∀ j, j < Bcols → j * Brows + Brows ≤ (h Bx).length := by
    intro j hj
    have h1 : (j + 1) * Brows ≤ Bcols * Brows := Nat.mul_le_mul_right Brows hj
    rw [Nat.succ_mul, Nat.mul_comm Bcols Brows] at h1
    omega
  obtain ⟨st1, he, hinv, _, _⟩ :=
    gemm_F_i_loop h Ax Arows Acols Bx Brows Bcols Sx hA hB hbound hinj hAlen hBlen1 Arows
      (Nat.le_refl _)
  refine ⟨st1.mem, ?_, ?_⟩
  · have hne : ¬ ('F' = 'T') := by decide
    simp only [gemm, hne, if_false, if_true, he, Option.map_some']
  · simpa only [Nat.mul_one] using hinv

/-- The branch `Strans == 'T'` in general: when `Sx` is neither `Ax` nor `Bx`,
`Scols` is at least `Arows` and every access stays inside its buffer, the call
is defined, position `i + j*Scols` of `Sx` holds the accumulated sum for every
`i < Arows`, `j < Bcols`, and nothing else has changed. -/
theorem gemm_T_spec (h : Heap T) (Ax : Ptr) (Arows Acols : Nat) (Atrans : Char) (Bx : Ptr)
    (Brows Bcols : Nat) (Btrans : Char) (Sx : Ptr) (Srows Scols : Nat)
    (hA : Ax ≠ Sx) (hB : Bx ≠ Sx) (hScols : Arows ≤ Scols)
    (hAlen : ∀ i, i < Arows → i * Acols + Brows ≤ (h Ax).length)
    (hBlen : Brows * Bcols ≤ (h Bx).length) (hSlen : Bcols * Scols ≤ (h Sx).length) :
    ∃ h1, gemm h Ax Arows Acols Atrans Bx Brows Bcols Btrans Sx Srows Scols 'T' = some h1
      ∧ GemmInv h Ax Acols Bx Brows Bcols Sx (fun i j => i + j * Scols) Arows 0 h1 := by
  have hbound : ∀ i j, i < Arows → j < Bcols → i + j * Scols < (h Sx).length := by
    intro i j hi hj
    have := index_lt_mul j Bcols i Scols hj (by omega)
    omega
  have hinj : ∀ i1 j1 i2 j2, i1 < Arows → i2 < Arows → j1 < Bcols → j2 < Bcols →
      i1 + j1 * Scols = i2 + j2 * Scols → i1 = i2 ∧ j1 = j2 := by
    intro i1 j1 i2 j2 hi1 hi2 _ _ he
    have := index_inj Scols j1 i1 j2 i2 (by omega) (by omega) (by omega)
    exact ⟨this.2, this.1⟩
  have hBlen1 : ∀ j, j < Bcols → j * Brows + Brows ≤ (h Bx).length := by
    intro j hj
    have h1 : (j + 1) * Brows ≤ Bcols * Brows := Nat.mul_le_mul_right Brows hj
    rw [Nat.succ_mul, Nat.mul_comm Bcols Brows] at h1
    omega
  obtain ⟨st1, he, hinv, _⟩ :=
    gemm_T_i_loop h Ax Arows Acols Bx Brows Bcols Sx Scols hA hB hbound hinj hAlen hBlen1 Arows
      (Nat.le_refl _)
  exact ⟨st1.mem, by simp only [gemm, if_true, he, Option.map_some'], hinv⟩

end gemm_branches

/-! ### Claims about `gemm` -/

/-- C1: `gemm` with `Strans = 'F'` computes `A·B` in row-major. For conformant
dimensions (`Brows = Acols`), a row-major buffer `Ax` of `Arows*Acols` elements,
a column-major buffer `Bx` of `Brows*Bcols` elements and an output buffer `Sx`
(distinct from both) of `Arows*Bcols` elements with any initial content, the
call is defined and afterwards
`Sx[i*Bcols + j] = Σ_{k<Acols} Ax[i*Acols + k] * Bx[j*Brows + k]` for all
`i < Arows`, `j < Bcols`. -/
theorem gemm_F_row_major {T : Type} [Semiring T] (h : Heap T) (Ax : Ptr) (Arows Acols : Nat)
    (Atrans : Char) (Bx : Ptr) (Brows Bcols : Nat) (Btrans : Char) (Sx : Ptr)
    (Srows Scols : Nat) (hA : Ax ≠ Sx) (hB : Bx ≠ Sx) (hconf : Brows = Acols)
    (hAx : Arows * Acols ≤ (h Ax).length) (hBx : Brows * Bcols ≤ (h Bx).length)
    (hSx : Arows * Bcols ≤ (h Sx).length) :
    ∃ h1, gemm h Ax Arows Acols Atrans Bx Brows Bcols Btrans Sx Srows Scols 'F' = some h1
      ∧ ∀ i j, i < Arows → j < Bcols →
          (h1 Sx)[i * Bcols + j]?
            = some (∑ k in Finset.range Acols,
                h.elem Ax (i * Acols + k) * h.elem Bx (j * Brows + k)) := by
  obtain ⟨h1, he, _, _, hval, _⟩ :=
    gemm_F_spec h Ax Arows Acols Atrans Bx Brows Bcols Btrans Sx Srows Scols hA hB
      (gemm_A_rows_fit h Ax Arows Acols Brows hconf hAx) hBx hSx
  refine ⟨h1, he, ?_⟩
  intro i j hi hj
  have := hval i j hj (Or.inl hi)
  rw [gemm_entry, hconf] at this
  rw [hconf]
  exact this

/-- C1, the example of the specification: `Ax=[1,2,3,4]`, `Bx=[5,7,6,8]`, all
dimensions `2`, gives `Sx=[19,22,43,50]`. -/
theorem gemm_F_row_major_witness :
    (∃ h1, gemm (heapOf [[1, 2, 3, 4], [5, 7, 6, 8], ([9, 9, 9, 9] : List Int)])
        0 2 2 'N' 1 2 2 'N' 2 2 2 'F' = some h1
      ∧ ∀ i j, i < 2 → j < 2 →
          (h1 2)[i * 2 + j]?
            = some (∑ k in Finset.range 2,
                (heapOf [[1, 2, 3, 4], [5, 7, 6, 8], ([9, 9, 9, 9] : List Int)]).elem 0 (i * 2 + k)
                * (heapOf [[1, 2, 3, 4], [5, 7, 6, 8], ([9, 9, 9, 9] : List Int)]).elem 1
                    (j * 2 + k)))
    ∧ (gemm (heapOf [[1, 2, 3, 4], [5, 7, 6, 8], ([9, 9, 9, 9] : List Int)])
        0 2 2 'N' 1 2 2 'N' 2 2 2 'F').map (fun h1 => h1 2) = some [19, 22, 43, 50] :=
  ⟨gemm_F_row_major (heapOf [[1, 2, 3, 4], [5, 7, 6, 8], ([9, 9, 9, 9] : List Int)])
      0 2 2 'N' 1 2 2 'N' 2 2 2 (by decide) (by decide) rfl (by decide) (by decide) (by decide),
    by decide⟩

/-- C7: `gemm` ignores the transpose flags of its operands. For every input,
the result (whether the call is defined, and the whole heap after it, `Sx`
included) is the same for every value of `Atrans`, of `Btrans` and of `Srows`,
all other arguments being equal. -/
theorem gemm_ignores_operand_flags {T : Type} [Zero T] [Add T] [Mul T] (h : Heap T) (Ax : Ptr)
    (Arows Acols : Nat) (Atrans Atrans2 : Char) (Bx : Ptr) (Brows Bcols : Nat)
    (Btrans Btrans2 : Char) (Sx : Ptr) (Srows Srows2 Scols : Nat) (Strans : Char) :
    gemm h Ax Arows Acols Atrans Bx Brows Bcols Btrans Sx Srows Scols Strans
      = gemm h Ax Arows Acols Atrans2 Bx Brows Bcols Btrans2 Sx Srows2 Scols Strans :=
  rfl

/-- C8 as amended: `gemm` with `Strans = 'T'` outputs the transpose of `A·B`
in row-major when `Sx` is a buffer of its own. For conformant dimensions
(`Brows = Acols`), `S` described as the `Bcols × Arows` result
(`Scols = Arows`; `Srows`, which the code never reads, may be `Bcols` or
anything else), buffers of the stated sizes and `Sx` distinct from `Ax` and
`Bx`, the call is defined and afterwards
`Sx[j*Arows + i] = Σ_{k<Acols} Ax[i*Acols + k] * Bx[j*Brows + k]` for all
`i < Arows`, `j < Bcols`; the branch `'F'` is defined on the same `A` and `B`
and its entry `i*Bcols + j` is that same value. -/
theorem gemm_T_transposed {T : Type} [Semiring T] (h : Heap T) (Ax : Ptr) (Arows Acols : Nat)
    (Atrans : Char) (Bx : Ptr) (Brows Bcols : Nat) (Btrans : Char) (Sx : Ptr)
    (Srows Scols : Nat) (hA : Ax ≠ Sx) (hB : Bx ≠ Sx) (hconf : Brows = Acols)
    (hScols : Scols = Arows)
    (hAx : Arows * Acols ≤ (h Ax).length) (hBx : Brows * Bcols ≤ (h Bx).length)
    (hSx : Arows * Bcols ≤ (h Sx).length) :
    ∃ hT hF, gemm h Ax Arows Acols Atrans Bx Brows Bcols Btrans Sx Srows Scols 'T' = some hT
      ∧ gemm h Ax Arows Acols Atrans Bx Brows Bcols Btrans Sx Srows Scols 'F' = some hF
      ∧ ∀ i j, i < Arows → j < Bcols →
          (hT Sx)[j * Arows + i]?
            = some (∑ k in Finset.range Acols,
                h.elem Ax (i * Acols + k) * h.elem Bx (j * Brows + k))
          ∧ (hT Sx)[j * Arows + i]? = (hF Sx)[i * Bcols + j]? := by
  have hAlen := gemm_A_rows_fit h Ax Arows Acols Brows hconf hAx
  obtain ⟨hT, heT, _, _, hvalT, _⟩ :=
    gemm_T_spec h Ax Arows Acols Atrans Bx Brows Bcols Btrans Sx Srows Scols hA hB
      (by omega) hAlen hBx (by rw [hScols, Nat.mul_comm]; exact hSx)
  obtain ⟨hF, heF, _, _, hvalF, _⟩ :=
    gemm_F_spec h Ax Arows Acols Atrans Bx Brows Bcols Btrans Sx Srows Scols hA hB hAlen hBx hSx
  refine ⟨hT, hF, heT, heF, ?_⟩
  intro i j hi hj
  have hT1 := hvalT i j hj (Or.inl hi)
  have hF1 := hvalF i j hj (Or.inl hi)
  simp only [hScols] at hT1
  rw [Nat.add_comm] at hT1
  refine ⟨?_, by rw [hT1, hF1]⟩
  rw [hT1, gemm_entry, hconf]

/-- C8 as amended, at a concrete non-square input on which the two branches
differ: `A = [[1,2],[3,4]]` (row-major), `B = [[5,6,1],[7,8,1]]` (column-major
`[5,7,6,8,1,1]`), so `A·B = [[19,22,3],[43,50,7]]`; with `Srows = 3`,
`Scols = 2` the branch `'T'` leaves `[19,43,22,50,3,7]`, the row-major
transpose, where the branch `'F'` leaves `[19,22,3,43,50,7]`. -/
theorem gemm_T_transposed_witness :
    (∃ hT hF,
      gemm (heapOf [[1, 2, 3, 4], [5, 7, 6, 8, 1, 1], ([9, 9, 9, 9, 9, 9] : List Int)])
        0 2 2 'N' 1 2 3 'N' 2 3 2 'T' = some hT
      ∧ gemm (heapOf [[1, 2, 3, 4], [5, 7, 6, 8, 1, 1], ([9, 9, 9, 9, 9, 9] : List Int)])
        0 2 2 'N' 1 2 3 'N' 2 3 2 'F' = some hF
      ∧ ∀ i j, i < 2 → j < 3 →
          (hT 2)[j * 2 + i]?
            = some (∑ k in Finset.range 2,
                (heapOf [[1, 2, 3, 4], [5, 7, 6, 8, 1, 1],
                  ([9, 9, 9, 9, 9, 9] : List Int)]).elem 0 (i * 2 + k)
                * (heapOf [[1, 2, 3, 4], [5, 7, 6, 8, 1, 1],
                    ([9, 9, 9, 9, 9, 9] : List Int)]).elem 1 (j * 2 + k))
          ∧ (hT 2)[j * 2 + i]? = (hF 2)[i * 3 + j]?)
    ∧ (gemm (heapOf [[1, 2, 3, 4], [5, 7, 6, 8, 1, 1], ([9, 9, 9, 9, 9, 9] : List Int)])
        0 2 2 'N' 1 2 3 'N' 2 3 2 'T').map (fun h1 => h1 2) = some [19, 43, 22, 50, 3, 7]
    ∧ (gemm (heapOf [[1, 2, 3, 4], [5, 7, 6, 8, 1, 1], ([9, 9, 9, 9, 9, 9] : List Int)])
        0 2 2 'N' 1 2 3 'N' 2 3 2 'F').map (fun h1 => h1 2) = some [19, 22, 3, 43, 50, 7] :=
  ⟨gemm_T_transposed
      (heapOf [[1, 2, 3, 4], [5, 7, 6, 8, 1, 1], ([9, 9, 9, 9, 9, 9] : List Int)])
      0 2 2 'N' 1 2 3 'N' 2 3 2 (by decide) (by decide) rfl rfl (by decide) (by decide)
      (by decide),
    by decide, by decide⟩

/-- C8 as stated fails when the output buffer is an operand. With
`Ax = [1,2,3,4]`, `Bx = [5,7,6,8]`, all dimensions `2` and `Sx` the buffer `Bx`
itself, every access is in bounds and the call is defined, but the branch `'T'`
overwrites `Bx` while it is still reading it and leaves `[14,210,16,240]`,
not the transpose `[19,43,22,50]` of `A·B`: position `0` holds `14`, not
`Σ_k Ax[k] * Bx[k] = 19`. -/
theorem gemm_T_output_is_operand :
    (gemm (heapOf [[1, 2, 3, 4], ([5, 7, 6, 8] : List Int)])
        0 2 2 'N' 1 2 2 'N' 1 2 2 'T').map (fun h1 => h1 1) = some [14, 210, 16, 240]
      ∧ ¬ (∃ hT, gemm (heapOf [[1, 2, 3, 4], ([5, 7, 6, 8] : List Int)])
              0 2 2 'N' 1 2 2 'N' 1 2 2 'T' = some hT
            ∧ ∀ i j, i < 2 → j < 2 →
                (hT 1)[j * 2 + i]?
                  = some (∑ k in Finset.range 2,
                      (heapOf [[1, 2, 3, 4], ([5, 7, 6, 8] : List Int)]).elem 0 (i * 2 + k)
                      * (heapOf [[1, 2, 3, 4], ([5, 7, 6, 8] : List Int)]).elem 1
                          (j * 2 + k))) := by
  have hrun : (gemm (heapOf [[1, 2, 3, 4], ([5, 7, 6, 8] : List Int)])
      0 2 2 'N' 1 2 2 'N' 1 2 2 'T').map (fun h1 => h1 1) = some [14, 210, 16, 240] := by
    decide
  refine ⟨hrun, ?_⟩
  rintro ⟨hT, he, hall⟩
  rw [he] at hrun
  have h1 : hT 1 = [14, 210, 16, 240] := by simpa using hrun
  have h00 := hall 0 0 (by decide) (by decide)
  rw [h1] at h00
  simp [Finset.sum_range_succ, Heap.elem, heapOf] at h00

/-! ## `svd_solve` -/

theorem svd_solve_double_calls {T : Type} [One T] [Neg T] (g : Gelss T) (h : Heap T)
    (Ax : Ptr) (Arows Acols : Int) (Bx : Ptr) (Bcols : Int) (Sx x : Ptr) (xdim : Int) :
    (svd_solve_double g h Ax Arows Acols Bx Bcols Sx x xdim).calls
      = [⟨Arows, Acols, Bcols, Ax, Arows, Bx, Acols, Sx, -1, x, xdim⟩] := by
  unfold svd_solve_double Gelss.call
  dsimp only
  split <;> rfl

theorem svd_solve_float_calls {T : Type} [One T] [Neg T] (g : Gelss T) (h : Heap T)
    (Ax : Ptr) (Arows Acols : Int) (Bx : Ptr) (Bcols : Int) (Sx x : Ptr) (xdim : Int) :
    (svd_solve_float g h Ax Arows Acols Bx Bcols Sx x xdim).calls
      = [⟨Arows, Acols, Bcols, Ax, Arows, Bx, Acols, Sx, -1, x, xdim⟩] := by
  unfold svd_solve_float Gelss.call
  dsimp only
  split <;> rfl

/-- When the external routine rejects the arguments `svd_solve` builds, the
double overload sends the diagnostic with the negative flag to `std::cerr` and
the heap is what it was before the call. -/
theorem svd_solve_double_rejected {T : Type} [One T] [Neg T] (g : Gelss T)
    (hg : g.ChecksArguments) (h : Heap T) (Ax : Ptr) (Arows Acols : Int) (Bx : Ptr)
    (Bcols : Int) (Sx x : Ptr) (xdim : Int) (i : Nat) (hi : 0 < i)
    (hbad : gelss_illegal_argument
      (⟨Arows, Acols, Bcols, Ax, Arows, Bx, Acols, Sx, -1, x, xdim⟩ : GelssArgs T) = some i) :
    (svd_solve_double g h Ax Arows Acols Bx Bcols Sx x xdim).cerr
        = [.str "svd_solve failed with dgelss giving flag: ", .int (-(i : Int)),
            .chr (Char.ofNat 10)]
      ∧ (svd_solve_double g h Ax Arows Acols Bx Bcols Sx x xdim).mem = h := by
  obtain ⟨hinfo, hmem⟩ := hg h _ i hbad
  have hne : (g h ⟨Arows, Acols, Bcols, Ax, Arows, Bx, Acols, Sx, -1, x, xdim⟩).INFO ≠ 0 := by
    rw [hinfo]; omega
  unfold svd_solve_double Gelss.call
  dsimp only
  rw [if_pos hne]
  exact ⟨by rw [hinfo], hmem⟩

theorem gelss_checks_only_checks {T : Type} : (gelss_checks_only (T := T)).ChecksArguments := by
  intro h a i hi
  simp [gelss_checks_only, hi]

/-! ### Claims about `svd_solve` -/

/-- C5 fails on the code: with `Arows = 3`, `Acols = 1` both overloads of
`svd_solve` make one call to the external routine and hand it `LDB = 1`, which
is `Acols` and is smaller than `max(Arows, Acols) = 3`. -/
theorem svd_solve_LDB_too_small {T : Type} [One T] [Neg T] (g : Gelss T) (h : Heap T)
    (Ax Bx Sx x : Ptr) (Bcols xdim : Int) :
    (svd_solve_double g h Ax 3 1 Bx Bcols Sx x xdim).calls.map GelssArgs.LDB = [1]
      ∧ (svd_solve_float g h Ax 3 1 Bx Bcols Sx x xdim).calls.map GelssArgs.LDB = [1]
      ∧ ¬ (max (3 : Int) 1 ≤ 1) := by
  rw [svd_solve_double_calls, svd_solve_float_calls]
  exact ⟨rfl, rfl, by decide⟩

/-- C6 fails on the code: called with `Arows=3`, `Acols=1`, `Bcols=1`,
`Ax=[1,1,1]`, `Bx=[1,2,3]` and an external routine that performs the argument
checks of its contract, `svd_solve` reports the failure flag `-7` (the seventh
argument, `LDB`, is illegal) on `std::cerr`, and `Bx` is left as `[1,2,3]`, so
`Bx[0]` is `1` and not the least-squares solution `2`. -/
theorem svd_solve_overdetermined_rejected (g : Gelss ℚ) (hg : g.ChecksArguments) :
    (svd_solve_double g (heapOf [[1, 1, 1], [1, 2, 3], [0], [0, 0, 0, 0, 0, 0]])
        0 3 1 1 1 2 3 6).cerr
        = [.str "svd_solve failed with dgelss giving flag: ", .int (-7), .chr (Char.ofNat 10)]
      ∧ (svd_solve_double g (heapOf [[1, 1, 1], [1, 2, 3], [0], [0, 0, 0, 0, 0, 0]])
          0 3 1 1 1 2 3 6).mem 1 = [1, 2, 3]
      ∧ ((svd_solve_double g (heapOf [[1, 1, 1], [1, 2, 3], [0], [0, 0, 0, 0, 0, 0]])
          0 3 1 1 1 2 3 6).mem 1)[0]? ≠ some 2 := by
  obtain ⟨h1, h2⟩ := svd_solve_double_rejected g hg
    (heapOf [[1, 1, 1], [1, 2, 3], [0], [0, 0, 0, 0, 0, 0]]) 0 3 1 1 1 2 3 6 7 (by decide)
    (by decide)
  refine ⟨h1, by rw [h2]; rfl, ?_⟩
  rw [h2]
  simp [heapOf]

/-- C6 with a stand-in external routine that only performs the argument
checks. -/
theorem svd_solve_overdetermined_rejected_witness :
    (svd_solve_double (gelss_checks_only : Gelss ℚ)
        (heapOf [[1, 1, 1], [1, 2, 3], [0], [0, 0, 0, 0, 0, 0]]) 0 3 1 1 1 2 3 6).cerr
        = [.str "svd_solve failed with dgelss giving flag: ", .int (-7), .chr (Char.ofNat 10)]
      ∧ (svd_solve_double (gelss_checks_only : Gelss ℚ)
          (heapOf [[1, 1, 1], [1, 2, 3], [0], [0, 0, 0, 0, 0, 0]]) 0 3 1 1 1 2 3 6).mem 1
        = [1, 2, 3]
      ∧ ((svd_solve_double (gelss_checks_only : Gelss ℚ)
          (heapOf [[1, 1, 1], [1, 2, 3], [0], [0, 0, 0, 0, 0, 0]]) 0 3 1 1 1 2 3 6).mem 1)[0]?
        ≠ some (2 : ℚ) :=
  svd_solve_overdetermined_rejected gelss_checks_only gelss_checks_only_checks

/-- C11: `svd_solve` never turns an external failure into an error. For
every heap and status `INFO` the external routine leaves, the call returns (the
embedding is a total function), the heap after the call is the heap the
external routine left, and the diagnostic, carrying `INFO`, is emitted exactly
when `INFO != 0`: on `std::cerr` by the double overload and on `std::cout` by
the float overload; nothing else is printed. -/
theorem svd_solve_reports_and_returns {T : Type} [One T] [Neg T] (g : Gelss T) (h : Heap T)
    (Ax : Ptr) (Arows Acols : Int) (Bx : Ptr) (Bcols : Int) (Sx x : Ptr) (xdim : Int) :
    (svd_solve_double g h Ax Arows Acols Bx Bcols Sx x xdim).mem
        = (g h ⟨Arows, Acols, Bcols, Ax, Arows, Bx, Acols, Sx, -1, x, xdim⟩).mem
      ∧ (svd_solve_double g h Ax Arows Acols Bx Bcols Sx x xdim).cerr
        = (if (g h ⟨Arows, Acols, Bcols, Ax, Arows, Bx, Acols, Sx, -1, x, xdim⟩).INFO ≠ 0 then
            [.str "svd_solve failed with dgelss giving flag: ",
              .int (g h ⟨Arows, Acols, Bcols, Ax, Arows, Bx, Acols, Sx, -1, x, xdim⟩).INFO,
              .chr (Char.ofNat 10)]
          else [])
      ∧ (svd_solve_double g h Ax Arows Acols Bx Bcols Sx x xdim).cout = []
      ∧ (svd_solve_float g h Ax Arows Acols Bx Bcols Sx x xdim).mem
        = (g h ⟨Arows, Acols, Bcols, Ax, Arows, Bx, Acols, Sx, -1, x, xdim⟩).mem
      ∧ (svd_solve_float g h Ax Arows Acols Bx Bcols Sx x xdim).cout
        = (if (g h ⟨Arows, Acols, Bcols, Ax, Arows, Bx, Acols, Sx, -1, x, xdim⟩).INFO ≠ 0 then
            [.str "svd_solve failed with sgelss giving flag: ",
              .int (g h ⟨Arows, Acols, Bcols, Ax, Arows, Bx, Acols, Sx, -1, x, xdim⟩).INFO,
              .chr (Char.ofNat 10)]
          else [])
      ∧ (svd_solve_float g h Ax Arows Acols Bx Bcols Sx x xdim).cerr = [] := by
  unfold svd_solve_double svd_solve_float Gelss.call
  dsimp only
  refine ⟨?_, ?_, ?_, ?_, ?_, ?_⟩ <;> split <;> rfl

/-- The double overload is one run of the external routine and nothing else:
the whole result is read off the single application of the routine to the
heap it was given. -/
theorem svd_solve_double_eq {T : Type} [One T] [Neg T] (g : Gelss T) (h : Heap T)
    (Ax : Ptr) (Arows Acols : Int) (Bx : Ptr) (Bcols : Int) (Sx x : Ptr) (xdim : Int) :
    svd_solve_double g h Ax Arows Acols Bx Bcols Sx x xdim
      = ⟨(g h ⟨Arows, Acols, Bcols, Ax, Arows, Bx, Acols, Sx, -1, x, xdim⟩).mem,
          [⟨Arows, Acols, Bcols, Ax, Arows, Bx, Acols, Sx, -1, x, xdim⟩],
          if (g h ⟨Arows, Acols, Bcols, Ax, Arows, Bx, Acols, Sx, -1, x, xdim⟩).INFO ≠ 0 then
            [.str "svd_solve failed with dgelss giving flag: ",
              .int (g h ⟨Arows, Acols, Bcols, Ax, Arows, Bx, Acols, Sx, -1, x, xdim⟩).INFO,
              .chr (Char.ofNat 10)]
          else [],
          []⟩ := by
  unfold svd_solve_double Gelss.call
  dsimp only
  split <;> rfl

/-- The float overload is one run of the external routine and nothing else. -/
theorem svd_solve_float_eq {T : Type} [One T] [Neg T] (g : Gelss T) (h : Heap T)
    (Ax : Ptr) (Arows Acols : Int) (Bx : Ptr) (Bcols : Int) (Sx x : Ptr) (xdim : Int) :
    svd_solve_float g h Ax Arows Acols Bx Bcols Sx x xdim
      = ⟨(g h ⟨Arows, Acols, Bcols, Ax, Arows, Bx, Acols, Sx, -1, x, xdim⟩).mem,
          [⟨Arows, Acols, Bcols, Ax, Arows, Bx, Acols, Sx, -1, x, xdim⟩],
          [],
          if (g h ⟨Arows, Acols, Bcols, Ax, Arows, Bx, Acols, Sx, -1, x, xdim⟩).INFO ≠ 0 then
            [.str "svd_solve failed with sgelss giving flag: ",
              .int (g h ⟨Arows, Acols, Bcols, Ax, Arows, Bx, Acols, Sx, -1, x, xdim⟩).INFO,
              .chr (Char.ofNat 10)]
          else []⟩ := by
  unfold svd_solve_float Gelss.call
  dsimp only
  split <;> rfl

/-- C12: `svd_solve` makes exactly one call to the external routine, with
`M=Arows`, `N=Acols`, `NRHS=Bcols`, `A=Ax`, `LDA=Arows`, `B=Bx`, `LDB=Acols`,
`S=Sx`, `WORK=x`, `LWORK=xdim` and `RCOND = -1`, which is negative, whatever the
arguments of `svd_solve` are (both overloads). The call is made: for every
routine `g` the heap after `svd_solve` is the heap `g` leaves when run once on
the heap before, with these arguments, and the flag printed is the `INFO` of
that run; the record of calls is this one call; and any two routines that
agree on this one run give the same result. -/
theorem svd_solve_single_call {T : Type} [LinearOrderedRing T] (g g2 : Gelss T) (h : Heap T)
    (Ax : Ptr) (Arows Acols : Int) (Bx : Ptr) (Bcols : Int) (Sx x : Ptr) (xdim : Int) :
    (svd_solve_double g h Ax Arows Acols Bx Bcols Sx x xdim).calls
        = [⟨Arows, Acols, Bcols, Ax, Arows, Bx, Acols, Sx, -1, x, xdim⟩]
      ∧ (svd_solve_float g h Ax Arows Acols Bx Bcols Sx x xdim).calls
        = [⟨Arows, Acols, Bcols, Ax, Arows, Bx, Acols, Sx, -1, x, xdim⟩]
      ∧ (∀ a, a ∈ (svd_solve_double g h Ax Arows Acols Bx Bcols Sx x xdim).calls →
          a.RCOND = -1 ∧ a.RCOND < 0)
      ∧ (∀ a, a ∈ (svd_solve_float g h Ax Arows Acols Bx Bcols Sx x xdim).calls →
          a.RCOND = -1 ∧ a.RCOND < 0)
      ∧ svd_solve_double g h Ax Arows Acols Bx Bcols Sx x xdim
        = ⟨(g h ⟨Arows, Acols, Bcols, Ax, Arows, Bx, Acols, Sx, -1, x, xdim⟩).mem,
            [⟨Arows, Acols, Bcols, Ax, Arows, Bx, Acols, Sx, -1, x, xdim⟩],
            if (g h ⟨Arows, Acols, Bcols, Ax, Arows, Bx, Acols, Sx, -1, x, xdim⟩).INFO ≠ 0 then
              [.str "svd_solve failed with dgelss giving flag: ",
                .int (g h ⟨Arows, Acols, Bcols, Ax, Arows, Bx, Acols, Sx, -1, x, xdim⟩).INFO,
                .chr (Char.ofNat 10)]
            else [],
            []⟩
      ∧ svd_solve_float g h Ax Arows Acols Bx Bcols Sx x xdim
        = ⟨(g h ⟨Arows, Acols, Bcols, Ax, Arows, Bx, Acols, Sx, -1, x, xdim⟩).mem,
            [⟨Arows, Acols, Bcols, Ax, Arows, Bx, Acols, Sx, -1, x, xdim⟩],
            [],
            if (g h ⟨Arows, Acols, Bcols, Ax, Arows, Bx, Acols, Sx, -1, x, xdim⟩).INFO ≠ 0 then
              [.str "svd_solve failed with sgelss giving flag: ",
                .int (g h ⟨Arows, Acols, Bcols, Ax, Arows, Bx, Acols, Sx, -1, x, xdim⟩).INFO,
                .chr (Char.ofNat 10)]
            else []⟩
      ∧ (g h ⟨Arows, Acols, Bcols, Ax, Arows, Bx, Acols, Sx, -1, x, xdim⟩
            = g2 h ⟨Arows, Acols, Bcols, Ax, Arows, Bx, Acols, Sx, -1, x, xdim⟩ →
          svd_solve_double g h Ax Arows Acols Bx Bcols Sx x xdim
              = svd_solve_double g2 h Ax Arows Acols Bx Bcols Sx x xdim
            ∧ svd_solve_float g h Ax Arows Acols Bx Bcols Sx x xdim
              = svd_solve_float g2 h Ax Arows Acols Bx Bcols Sx x xdim) := by
  refine ⟨?_, ?_, ?_, ?_, svd_solve_double_eq g h Ax Arows Acols Bx Bcols Sx x xdim,
    svd_solve_float_eq g h Ax Arows Acols Bx Bcols Sx x xdim, ?_⟩
  · rw [svd_solve_double_calls]
  · rw [svd_solve_float_calls]
  · intro a ha
    rw [svd_solve_double_calls, List.mem_singleton] at ha
    subst ha
    exact ⟨rfl, by simp⟩
  · intro a ha
    rw [svd_solve_float_calls, List.mem_singleton] at ha
    subst ha
    exact ⟨rfl, by simp⟩
  · intro hgg
    rw [svd_solve_double_eq g, svd_solve_double_eq g2, svd_solve_float_eq g,
      svd_solve_float_eq g2, hgg]
    exact ⟨rfl, rfl⟩

/-- C12 at a concrete input, with a stand-in routine that rejects the call and
one that accepts it: each is run once, on the same arguments, and what it
reports shows in the result. -/
theorem svd_solve_single_call_witness :
    (svd_solve_double (gelss_checks_only : Gelss ℚ)
        (heapOf [[1, 1, 1], [1, 2, 3], [0], [0, 0, 0, 0, 0, 0]]) 0 3 1 1 1 2 3 6).calls
        = [⟨3, 1, 1, 0, 3, 1, 1, 2, -1, 3, 6⟩]
      ∧ (svd_solve_double (gelss_checks_only : Gelss ℚ)
          (heapOf [[1, 1, 1], [1, 2, 3], [0], [0, 0, 0, 0, 0, 0]]) 0 3 1 1 1 2 3 6).cerr
        = [.str "svd_solve failed with dgelss giving flag: ", .int (-7), .chr (Char.ofNat 10)]
      ∧ (svd_solve_double (gelss_checks_only : Gelss ℚ)
          (heapOf [[1, 1], [1, 2], [0], [0, 0, 0, 0, 0, 0]]) 0 1 2 1 1 2 3 6).calls
        = [⟨1, 2, 1, 0, 1, 1, 2, 2, -1, 3, 6⟩]
      ∧ (svd_solve_double (gelss_checks_only : Gelss ℚ)
          (heapOf [[1, 1], [1, 2], [0], [0, 0, 0, 0, 0, 0]]) 0 1 2 1 1 2 3 6).cerr = [] :=
  ⟨(svd_solve_single_call (gelss_checks_only : Gelss ℚ) gelss_checks_only
      (heapOf [[1, 1, 1], [1, 2, 3], [0], [0, 0, 0, 0, 0, 0]]) 0 3 1 1 1 2 3 6).1,
    by
      rw [(svd_solve_single_call (gelss_checks_only : Gelss ℚ) gelss_checks_only
        (heapOf [[1, 1, 1], [1, 2, 3], [0], [0, 0, 0, 0, 0, 0]]) 0 3 1 1 1 2 3 6).2.2.2.2.1]
      decide,
    (svd_solve_single_call (gelss_checks_only : Gelss ℚ) gelss_checks_only
      (heapOf [[1, 1], [1, 2], [0], [0, 0, 0, 0, 0, 0]]) 0 1 2 1 1 2 3 6).1,
    by
      rw [(svd_solve_single_call (gelss_checks_only : Gelss ℚ) gelss_checks_only
        (heapOf [[1, 1], [1, 2], [0], [0, 0, 0, 0, 0, 0]]) 0 1 2 1 1 2 3 6).2.2.2.2.1]
      decide⟩

/-! ## Scalar helpers -/

section scalar
variable {R : Type}

@[simp] theorem npy_complex_wrapper.zero_real [Zero R] : (0 : npy_complex_wrapper R).real = 0 := rfl

@[simp] theorem npy_complex_wrapper.zero_imag [Zero R] : (0 : npy_complex_wrapper R).imag = 0 := rfl

@[simp] theorem npy_complex_wrapper.add_real [Add R] (a b : npy_complex_wrapper R) :
    (a + b).real = a.real + b.real := rfl

@[simp] theorem npy_complex_wrapper.add_imag [Add R] (a b : npy_complex_wrapper R) :
    (a + b).imag = a.imag + b.imag := rfl

@[simp] theorem npy_complex_wrapper.mul_real [Add R] [Sub R] [Mul R]
    (a b : npy_complex_wrapper R) : (a * b).real = a.real * b.real - a.imag * b.imag := rfl

@[simp] theorem npy_complex_wrapper.mul_imag [Add R] [Sub R] [Mul R]
    (a b : npy_complex_wrapper R) : (a * b).imag = a.real * b.imag + a.imag * b.real := rfl

@[simp] theorem npy_complex_wrapper.conjugate_real [Neg R] (a : npy_complex_wrapper R) :
    (conjugate a).real = a.real := rfl

@[simp] theorem npy_complex_wrapper.conjugate_imag [Neg R] (a : npy_complex_wrapper R) :
    (conjugate a).imag = -a.imag := rfl

theorem npy_complex_wrapper.eq_zero_iff [Zero R] (a : npy_complex_wrapper R) :
    a = 0 ↔ a.real = 0 ∧ a.imag = 0 := by
  constructor
  · intro ha; subst ha; exact ⟨rfl, rfl⟩
  · intro ha; exact npy_complex_wrapper.ext ha.1 ha.2

end scalar

/-- C13: `conjugate` is the identity on real scalars and on complex scalars
changes only the sign of the imaginary component. For every complex `z`,
`real(conjugate(z)) = real(z)` and `imag(conjugate(z)) = -imag(z)`; for every
real `x`, `conjugate(x) = x`, `real(x) = x` and `imag(x) = 0`; and
`conjugate(conjugate(·))` is the identity on both (the float and the double
kind are the same exact ring here, so this covers the four kinds). -/
theorem conjugate_real_imag {R : Type} [CommRing R] (z : npy_complex_wrapper R) (x : R) :
    ComplexScalar.real (conjugate z) = ComplexScalar.real z
      ∧ ComplexScalar.imag (conjugate z) = -ComplexScalar.imag z
      ∧ conjugate x = x ∧ RealScalar.real x = x ∧ RealScalar.imag x = 0
      ∧ conjugate (conjugate z) = z ∧ conjugate (conjugate x) = x := by
  refine ⟨rfl, rfl, rfl, rfl, rfl, ?_, rfl⟩
  apply npy_complex_wrapper.ext
  · rfl
  · simp

/-- C19: `gemm` does nothing for an unrecognised layout selector. For every
`Strans` other than `'T'` and `'F'` and every other argument the call is
defined (no error is signalled) and the heap after it is the heap before it:
`Sx`, `Ax`, `Bx` and every other buffer are unchanged. -/
theorem gemm_unrecognised_selector {T : Type} [Zero T] [Add T] [Mul T] (h : Heap T) (Ax : Ptr)
    (Arows Acols : Nat) (Atrans : Char) (Bx : Ptr) (Brows Bcols : Nat) (Btrans : Char)
    (Sx : Ptr) (Srows Scols : Nat) (Strans : Char) (hT : Strans ≠ 'T') (hF : Strans ≠ 'F') :
    gemm h Ax Arows Acols Atrans Bx Brows Bcols Btrans Sx Srows Scols Strans = some h := by
  simp only [gemm, hT, hF, if_false]

/-- C19 at concrete inputs: the selectors `'t'`, `'f'` and `'N'` leave the
buffers `[1,2,3,4]`, `[5,7,6,8]` and `[9,9,9,9]` as they are. -/
theorem gemm_unrecognised_selector_witness :
    gemm (heapOf [[1, 2, 3, 4], [5, 7, 6, 8], ([9, 9, 9, 9] : List Int)])
        0 2 2 'N' 1 2 2 'N' 2 2 2 't'
        = some (heapOf [[1, 2, 3, 4], [5, 7, 6, 8], ([9, 9, 9, 9] : List Int)])
      ∧ gemm (heapOf [[1, 2, 3, 4], [5, 7, 6, 8], ([9, 9, 9, 9] : List Int)])
        0 2 2 'N' 1 2 2 'N' 2 2 2 'f'
        = some (heapOf [[1, 2, 3, 4], [5, 7, 6, 8], ([9, 9, 9, 9] : List Int)])
      ∧ gemm (heapOf [[1, 2, 3, 4], [5, 7, 6, 8], ([9, 9, 9, 9] : List Int)])
        0 2 2 'N' 1 2 2 'N' 2 2 2 'N'
        = some (heapOf [[1, 2, 3, 4], [5, 7, 6, 8], ([9, 9, 9, 9] : List Int)]) :=
  ⟨gemm_unrecognised_selector _ 0 2 2 'N' 1 2 2 'N' 2 2 2 't' (by decide) (by decide),
    gemm_unrecognised_selector _ 0 2 2 'N' 1 2 2 'N' 2 2 2 'f' (by decide) (by decide),
    gemm_unrecognised_selector _ 0 2 2 'N' 1 2 2 'N' 2 2 2 'N' (by decide) (by decide)⟩

/-- C16: `mynormsq` is the square of `mynorm` for every scalar kind, over the
reals (exact arithmetic, `sqrt` returning the non-negative root). For every
real `x`, `mynormsq(x) = mynorm(x)^2 = x^2` with `mynorm(x) = |x| >= 0`; for
every complex `z`, `mynormsq(z) = mynorm(z)^2 = real(z)^2 + imag(z)^2` with
`mynorm(z) >= 0`; and `mynorm` is `0` exactly at `0`. -/
theorem mynormsq_eq_mynorm_sq {R : Type} [LinearOrderedCommRing R] (sqrt : R → R)
    (hsqrt : ExactSqrt sqrt) (x : R) (z : npy_complex_wrapper R) :
    RealScalar.mynormsq x = RealScalar.mynorm x ^ 2
      ∧ RealScalar.mynormsq x = x ^ 2
      ∧ RealScalar.mynorm x = abs x
      ∧ 0 ≤ RealScalar.mynorm x
      ∧ ComplexScalar.mynormsq z = ComplexScalar.mynorm sqrt z ^ 2
      ∧ ComplexScalar.mynormsq z = ComplexScalar.real z ^ 2 + ComplexScalar.imag z ^ 2
      ∧ 0 ≤ ComplexScalar.mynorm sqrt z
      ∧ (RealScalar.mynorm x = 0 ↔ x = 0)
      ∧ (ComplexScalar.mynorm sqrt z = 0 ↔ z = 0) := by
  have ha : 0 ≤ z.real * z.real + z.imag * z.imag :=
    add_nonneg (mul_self_nonneg _) (mul_self_nonneg _)
  obtain ⟨hs0, hs1⟩ := hsqrt _ ha
  refine ⟨?_, ?_, rfl, ?_, ?_, ?_, hs0, ?_, ?_⟩
  · simp only [RealScalar.mynormsq, RealScalar.mynorm, sq_abs]
    exact (pow_two x).symm
  · simp only [RealScalar.mynormsq, pow_two]
  · exact abs_nonneg x
  · simp only [ComplexScalar.mynormsq, ComplexScalar.mynorm, pow_two, hs1]
  · simp only [ComplexScalar.mynormsq, ComplexScalar.real, ComplexScalar.imag, pow_two]
  · simp only [RealScalar.mynorm, abs_eq_zero]
  · rw [npy_complex_wrapper.eq_zero_iff]
    simp only [ComplexScalar.mynorm]
    constructor
    · intro h0
      rw [h0, mul_zero] at hs1
      exact (mul_self_add_mul_self_eq_zero).1 hs1.symm
    · intro hz
      rw [hz.1, hz.2, mul_zero, add_zero]
      have h1 := (hsqrt 0 (le_refl 0)).2
      exact mul_self_eq_zero.1 h1

/-- C16 over the real numbers with `Real.sqrt`, at `x = -3` and `z = (3, 4)`. -/
theorem mynormsq_eq_mynorm_sq_witness :
    ExactSqrt Real.sqrt
      ∧ (RealScalar.mynormsq (-3 : ℝ) = RealScalar.mynorm (-3 : ℝ) ^ 2
        ∧ RealScalar.mynormsq (-3 : ℝ) = (-3 : ℝ) ^ 2
        ∧ RealScalar.mynorm (-3 : ℝ) = abs (-3 : ℝ)
        ∧ 0 ≤ RealScalar.mynorm (-3 : ℝ)
        ∧ ComplexScalar.mynormsq (⟨3, 4⟩ : npy_complex_wrapper ℝ)
            = ComplexScalar.mynorm Real.sqrt ⟨3, 4⟩ ^ 2
        ∧ ComplexScalar.mynormsq (⟨3, 4⟩ : npy_complex_wrapper ℝ)
            = ComplexScalar.real (⟨3, 4⟩ : npy_complex_wrapper ℝ) ^ 2
              + ComplexScalar.imag (⟨3, 4⟩ : npy_complex_wrapper ℝ) ^ 2
        ∧ 0 ≤ ComplexScalar.mynorm Real.sqrt (⟨3, 4⟩ : npy_complex_wrapper ℝ)
        ∧ (RealScalar.mynorm (-3 : ℝ) = 0 ↔ (-3 : ℝ) = 0)
        ∧ (ComplexScalar.mynorm Real.sqrt (⟨3, 4⟩ : npy_complex_wrapper ℝ) = 0
            ↔ (⟨3, 4⟩ : npy_complex_wrapper ℝ) = 0)) :=
  ⟨fun a ha => ⟨Real.sqrt_nonneg a, Real.mul_self_sqrt ha⟩,
    mynormsq_eq_mynorm_sq Real.sqrt (fun a ha => ⟨Real.sqrt_nonneg a, Real.mul_self_sqrt ha⟩)
      (-3) ⟨3, 4⟩⟩

/-! ## `dot_prod` of a vector with itself, and after `axpy` -/

theorem dot_prod_fold_real_sum {R : Type} [CommRing R] (xs ys : List R) (n : Nat) :
    dot_prod_fold xs ys n = ∑ i in Finset.range n, xs.getD i 0 * ys.getD i 0 := by
  induction n with
  | zero => simp [dot_prod_fold]
  | succ n ih => rw [dot_prod_fold_succ, ih, Finset.sum_range_succ]; rfl

theorem dot_prod_fold_self_complex {R : Type} [CommRing R] (xs : List (npy_complex_wrapper R))
    (n : Nat) :
    (dot_prod_fold xs xs n).real
        = ∑ i in Finset.range n, ComplexScalar.mynormsq (xs.getD i 0)
      ∧ (dot_prod_fold xs xs n).imag = 0 := by
  induction n with
  | zero => simp [dot_prod_fold]
  | succ n ih =>
    rw [dot_prod_fold_succ, Finset.sum_range_succ]
    constructor
    · simp only [npy_complex_wrapper.add_real, npy_complex_wrapper.mul_real,
        npy_complex_wrapper.conjugate_real, npy_complex_wrapper.conjugate_imag, ih.1,
        ComplexScalar.mynormsq]
      ring
    · simp only [npy_complex_wrapper.add_imag, npy_complex_wrapper.mul_imag,
        npy_complex_wrapper.conjugate_real, npy_complex_wrapper.conjugate_imag, ih.2]
      ring

/-- C17: for a complex vector `x` holding at least `n` elements,
`dot_prod(x, x, n)` has imaginary part `0` and real part `Σ_{i<n} mynormsq(x_i)`,
which is non-negative and is `0` only if every `x_i` with `i < n` is `0`; for a
real vector, `dot_prod(x, x, n) = Σ_{i<n} mynormsq(x_i)` (exact arithmetic over
an ordered ring). -/
theorem dot_prod_self {R : Type} [LinearOrderedCommRing R] (hc : Heap (npy_complex_wrapper R))
    (hr : Heap R) (x xr : Ptr) (n : Nat) (hx : n ≤ (hc x).length)
    (hxr : n ≤ (hr xr).length) :
    (∃ v, dot_prod hc x x n = some v
        ∧ ComplexScalar.imag v = 0
        ∧ ComplexScalar.real v
            = ∑ i in Finset.range n, ComplexScalar.mynormsq (hc.elem x i)
        ∧ 0 ≤ ComplexScalar.real v
        ∧ (ComplexScalar.real v = 0 → ∀ i, i < n → hc.elem x i = 0))
      ∧ dot_prod hr xr xr n
          = some (∑ i in Finset.range n, RealScalar.mynormsq (hr.elem xr i)) := by
  have hnn : ∀ i ∈ Finset.range n, 0 ≤ ComplexScalar.mynormsq (hc.elem x i) := by
    intro i _
    exact add_nonneg (mul_self_nonneg _) (mul_self_nonneg _)
  obtain ⟨hre, him⟩ := dot_prod_fold_self_complex (hc x) n
  refine ⟨⟨dot_prod_fold (hc x) (hc x) n, ?_, him, hre, ?_, ?_⟩, ?_⟩
  · rw [dot_prod_eq_ite, if_pos ⟨hx, hx⟩]
  · show 0 ≤ (dot_prod_fold (hc x) (hc x) n).real
    rw [hre]
    exact Finset.sum_nonneg hnn
  · intro h0 i hi
    have h1 : (dot_prod_fold (hc x) (hc x) n).real = 0 := h0
    rw [hre] at h1
    have h2 := (Finset.sum_eq_zero_iff_of_nonneg hnn).1 h1 i (Finset.mem_range.2 hi)
    rw [npy_complex_wrapper.eq_zero_iff]
    exact (mul_self_add_mul_self_eq_zero).1 h2
  · rw [dot_prod_eq_ite, if_pos ⟨hxr, hxr⟩, dot_prod_fold_real_sum]
    rfl

/-- C17 at concrete inputs: the complex vector `[(1,2), (0,-3)]` gives
`(14, 0)` and the real vector `[2, -3]` gives `13`. -/
theorem dot_prod_self_witness :
    ((∃ v, dot_prod (heapOf [([⟨1, 2⟩, ⟨0, -3⟩] : List (npy_complex_wrapper Int))]) 0 0 2 = some v
        ∧ ComplexScalar.imag v = 0
        ∧ ComplexScalar.real v
            = ∑ i in Finset.range 2, ComplexScalar.mynormsq
                ((heapOf [([⟨1, 2⟩, ⟨0, -3⟩] : List (npy_complex_wrapper Int))]).elem 0 i)
        ∧ 0 ≤ ComplexScalar.real v
        ∧ (ComplexScalar.real v = 0 → ∀ i, i < 2 →
            (heapOf [([⟨1, 2⟩, ⟨0, -3⟩] : List (npy_complex_wrapper Int))]).elem 0 i = 0))
      ∧ dot_prod (heapOf [([2, -3] : List Int)]) 0 0 2
          = some (∑ i in Finset.range 2,
              RealScalar.mynormsq ((heapOf [([2, -3] : List Int)]).elem 0 i)))
    ∧ dot_prod (heapOf [([⟨1, 2⟩, ⟨0, -3⟩] : List (npy_complex_wrapper Int))]) 0 0 2
        = some ⟨14, 0⟩
    ∧ dot_prod (heapOf [([2, -3] : List Int)]) 0 0 2 = some 13 :=
  ⟨dot_prod_self (heapOf [([⟨1, 2⟩, ⟨0, -3⟩] : List (npy_complex_wrapper Int))])
      (heapOf [([2, -3] : List Int)]) 0 0 2 (by decide) (by decide),
    by decide, by decide⟩

theorem dot_prod_fold_axpy_left {R : Type} [CommRing R]
    (xs ys zs xs1 : List (npy_complex_wrapper R)) (alpha : npy_complex_wrapper R) (n : Nat)
    (hxs1 : ∀ i, i < n → xs1.getD i 0 = xs.getD i 0 + alpha * ys.getD i 0) :
    dot_prod_fold xs1 zs n
      = dot_prod_fold xs zs n + conjugate alpha * dot_prod_fold ys zs n := by
  induction n with
  | zero =>
    simp only [dot_prod_fold, List.range_zero, List.foldl_nil]
    apply npy_complex_wrapper.ext <;> simp
  | succ n ih =>
    rw [dot_prod_fold_succ, dot_prod_fold_succ, dot_prod_fold_succ,
      ih (fun i hi => hxs1 i (by omega)), hxs1 n (by omega)]
    apply npy_complex_wrapper.ext <;> simp <;> ring

theorem dot_prod_fold_axpy_right {R : Type} [CommRing R]
    (xs ys zs xs1 : List (npy_complex_wrapper R)) (alpha : npy_complex_wrapper R) (n : Nat)
    (hxs1 : ∀ i, i < n → xs1.getD i 0 = xs.getD i 0 + alpha * ys.getD i 0) :
    dot_prod_fold zs xs1 n
      = dot_prod_fold zs xs n + alpha * dot_prod_fold zs ys n := by
  induction n with
  | zero =>
    simp only [dot_prod_fold, List.range_zero, List.foldl_nil]
    apply npy_complex_wrapper.ext <;> simp
  | succ n ih =>
    rw [dot_prod_fold_succ, dot_prod_fold_succ, dot_prod_fold_succ,
      ih (fun i hi => hxs1 i (by omega)), hxs1 n (by omega)]
    apply npy_complex_wrapper.ext <;> simp <;> ring

/-- C15: `dot_prod` is conjugate-linear in its first argument and linear in
its second, as seen through `axpy`. For complex vectors `x`, `y`, `z` holding at
least `n` elements, `z` not being the buffer `x`, and every scalar `alpha`: the
call `axpy(x, y, alpha, n)` is defined, and with `x'` the content of `x` after
it, `dot_prod(x', z, n) = dot_prod(x, z, n) + conjugate(alpha) * dot_prod(y, z, n)`
and `dot_prod(z, x', n) = dot_prod(z, x, n) + alpha * dot_prod(z, y, n)`, the
four inner products on the right being taken before the call. -/
theorem dot_prod_after_axpy {R : Type} [CommRing R] (h : Heap (npy_complex_wrapper R))
    (x y z : Ptr) (alpha : npy_complex_wrapper R) (n : Nat) (hxz : z ≠ x)
    (hx : n ≤ (h x).length) (hy : n ≤ (h y).length) (hz : n ≤ (h z).length) :
    ∃ h1 a b c d, axpy h x y alpha n = some h1
      ∧ dot_prod h x z n = some a ∧ dot_prod h y z n = some b
      ∧ dot_prod h z x n = some c ∧ dot_prod h z y n = some d
      ∧ dot_prod h1 x z n = some (a + conjugate alpha * b)
      ∧ dot_prod h1 z x n = some (c + alpha * d) := by
  obtain ⟨h1, he, hfr, hlen, hlo, _⟩ := axpy_spec h x y alpha n hx hy
  have hz1 : h1 z = h z := hfr z hxz
  have hxs1 : ∀ i, i < n → (h1 x).getD i 0 = (h x).getD i 0 + alpha * (h y).getD i 0 := by
    intro i hi
    rw [List.getD_eq_getElem?_getD, hlo i hi]
    rfl
  refine ⟨h1, dot_prod_fold (h x) (h z) n, dot_prod_fold (h y) (h z) n,
    dot_prod_fold (h z) (h x) n, dot_prod_fold (h z) (h y) n, he, ?_, ?_, ?_, ?_, ?_, ?_⟩
  · rw [dot_prod_eq_ite, if_pos ⟨hx, hz⟩]
  · rw [dot_prod_eq_ite, if_pos ⟨hy, hz⟩]
  · rw [dot_prod_eq_ite, if_pos ⟨hz, hx⟩]
  · rw [dot_prod_eq_ite, if_pos ⟨hz, hy⟩]
  · rw [dot_prod_eq_ite, hz1, hlen, if_pos ⟨hx, hz⟩,
      dot_prod_fold_axpy_left (h x) (h y) (h z) (h1 x) alpha n hxs1]
  · rw [dot_prod_eq_ite, hz1, hlen, if_pos ⟨hz, hx⟩,
      dot_prod_fold_axpy_right (h x) (h y) (h z) (h1 x) alpha n hxs1]

/-- C15 at a concrete input: `x = [(1,1)]`, `y = [(0,1)]`, `z = [(2,0)]`,
`alpha = (0,1)`, so `x' = [(0,1)]`, `dot_prod(x', z) = (0,-2)` and
`dot_prod(z, x') = (0,2)`. -/
theorem dot_prod_after_axpy_witness :
    (∃ h1 a b c d,
      axpy (heapOf [[⟨1, 1⟩], [⟨0, 1⟩], ([⟨2, 0⟩] : List (npy_complex_wrapper Int))])
        0 1 ⟨0, 1⟩ 1 = some h1
      ∧ dot_prod (heapOf [[⟨1, 1⟩], [⟨0, 1⟩], ([⟨2, 0⟩] : List (npy_complex_wrapper Int))])
          0 2 1 = some a
      ∧ dot_prod (heapOf [[⟨1, 1⟩], [⟨0, 1⟩], ([⟨2, 0⟩] : List (npy_complex_wrapper Int))])
          1 2 1 = some b
      ∧ dot_prod (heapOf [[⟨1, 1⟩], [⟨0, 1⟩], ([⟨2, 0⟩] : List (npy_complex_wrapper Int))])
          2 0 1 = some c
      ∧ dot_prod (heapOf [[⟨1, 1⟩], [⟨0, 1⟩], ([⟨2, 0⟩] : List (npy_complex_wrapper Int))])
          2 1 1 = some d
      ∧ dot_prod h1 0 2 1 = some (a + conjugate (⟨0, 1⟩ : npy_complex_wrapper Int) * b)
      ∧ dot_prod h1 2 0 1 = some (c + (⟨0, 1⟩ : npy_complex_wrapper Int) * d))
    ∧ ((axpy (heapOf [[⟨1, 1⟩], [⟨0, 1⟩], ([⟨2, 0⟩] : List (npy_complex_wrapper Int))])
        0 1 ⟨0, 1⟩ 1).bind (fun h1 => dot_prod h1 0 2 1)) = some ⟨0, -2⟩
    ∧ ((axpy (heapOf [[⟨1, 1⟩], [⟨0, 1⟩], ([⟨2, 0⟩] : List (npy_complex_wrapper Int))])
        0 1 ⟨0, 1⟩ 1).bind (fun h1 => dot_prod h1 2 0 1)) = some ⟨0, 2⟩ :=
  ⟨dot_prod_after_axpy
      (heapOf [[⟨1, 1⟩], [⟨0, 1⟩], ([⟨2, 0⟩] : List (npy_complex_wrapper Int))])
      0 1 2 ⟨0, 1⟩ 1 (by decide) (by decide) (by decide) (by decide),
    by decide, by decide⟩

/-! ## Frame of `gemm` -/

/-- The state after the branch `'F'`, read position by position: position
`idx < Arows*Bcols` holds the entry of row `idx / Bcols` and column
`idx % Bcols`, every later position holds what it held before. -/
theorem GemmInv_F_positions {T : Type} [Semiring T] (h0 : Heap T) (Ax : Ptr) (Arows Acols : Nat)
    (Bx : Ptr) (Brows Bcols : Nat) (Sx : Ptr) (mem : Heap T)
    (hinv : GemmInv h0 Ax Acols Bx Brows Bcols Sx (fun i j => i * Bcols + j) Arows 0 mem) :
    (∀ idx, idx < Arows * Bcols →
        (mem Sx)[idx]? = some (gemm_entry h0 Ax Acols Bx Brows (idx / Bcols) (idx % Bcols)))
      ∧ (∀ idx, Arows * Bcols ≤ idx → (mem Sx)[idx]? = (h0 Sx)[idx]?) := by
  obtain ⟨_, _, hval, hold⟩ := hinv
  constructor
  · intro idx hidx
    have hB : 0 < Bcols := by
      rcases Nat.eq_zero_or_pos Bcols with h0 | h0
      · rw [h0, Nat.mul_zero] at hidx; omega
      · exact h0
    have hj : idx % Bcols < Bcols := Nat.mod_lt _ hB
    have hi : idx / Bcols < Arows := (Nat.div_lt_iff_lt_mul hB).2 hidx
    have := hval (idx / Bcols) (idx % Bcols) hj (Or.inl hi)
    dsimp only at this
    rw [Nat.div_add_mod'] at this
    exact this
  · intro idx hidx
    apply hold
    intro i1 j1 hj1 hlt
    have hi1 : i1 < Arows := by
      rcases hlt with h1 | ⟨_, h2⟩ <;> omega
    have := index_lt_mul i1 Arows j1 Bcols hi1 hj1
    show idx ≠ i1 * Bcols + j1
    omega

theorem gemm_entry_congr {T : Type} [Semiring T] (h h2 : Heap T) (Ax : Ptr) (Acols : Nat)
    (Bx : Ptr) (Brows : Nat) (hA : h2 Ax = h Ax) (hB : h2 Bx = h Bx) (i j : Nat) :
    gemm_entry h2 Ax Acols Bx Brows i j = gemm_entry h Ax Acols Bx Brows i j := by
  simp only [gemm_entry, Heap.elem, hA, hB]

/-- C18 as amended: frame of `gemm` with `Strans = 'F'` when `Sx` is a buffer
of its own. For every input whose accesses stay inside the buffers, `Sx`
being neither `Ax` nor `Bx`: the call is defined;
afterwards each `Sx` position `idx < Arows*Bcols` holds the sum accumulated
for row `idx / Bcols` and column `idx % Bcols`, a value fixed by the contents of
`Ax` and `Bx` alone, so a second call on a heap with the same `Ax` and `Bx`,
any other content of `Sx` and any other `Srows`, `Scols` leaves the same values
there; every `Sx` position `>= Arows*Bcols` is unchanged; `Ax`, `Bx` and
every other buffer are unchanged; and with `Brows = 0` every position
`idx < Arows*Bcols` holds `0`. -/
theorem gemm_F_frame {T : Type} [Semiring T] (h h2 : Heap T) (Ax : Ptr) (Arows Acols : Nat)
    (Atrans : Char) (Bx : Ptr) (Brows Bcols : Nat) (Btrans : Char) (Sx : Ptr)
    (Srows Scols Srows2 Scols2 : Nat) (hA : Ax ≠ Sx) (hB : Bx ≠ Sx)
    (hAlen : ∀ i, i < Arows → i * Acols + Brows ≤ (h Ax).length)
    (hBlen : Brows * Bcols ≤ (h Bx).length) (hSlen : Arows * Bcols ≤ (h Sx).length)
    (hA2 : h2 Ax = h Ax) (hB2 : h2 Bx = h Bx) (hSlen2 : Arows * Bcols ≤ (h2 Sx).length) :
    ∃ h1 h3,
      gemm h Ax Arows Acols Atrans Bx Brows Bcols Btrans Sx Srows Scols 'F' = some h1
      ∧ gemm h2 Ax Arows Acols Atrans Bx Brows Bcols Btrans Sx Srows2 Scols2 'F' = some h3
      ∧ (∀ idx, idx < Arows * Bcols →
          (h1 Sx)[idx]? = some (gemm_entry h Ax Acols Bx Brows (idx / Bcols) (idx % Bcols)))
      ∧ (∀ idx, idx < Arows * Bcols → (h3 Sx)[idx]? = (h1 Sx)[idx]?)
      ∧ (∀ idx, Arows * Bcols ≤ idx → (h1 Sx)[idx]? = (h Sx)[idx]?)
      ∧ (h1 Sx).length = (h Sx).length
      ∧ h1 Ax = h Ax ∧ h1 Bx = h Bx ∧ (∀ p, p ≠ Sx → h1 p = h p)
      ∧ (Brows = 0 → ∀ idx, idx < Arows * Bcols → (h1 Sx)[idx]? = some 0) := by
  obtain ⟨h1, he1, hinv1⟩ :=
    gemm_F_spec h Ax Arows Acols Atrans Bx Brows Bcols Btrans Sx Srows Scols hA hB hAlen hBlen
      hSlen
  obtain ⟨h3, he3, hinv3⟩ :=
    gemm_F_spec h2 Ax Arows Acols Atrans Bx Brows Bcols Btrans Sx Srows2 Scols2 hA hB
      (by rw [hA2]; exact hAlen) (by rw [hB2]; exact hBlen) hSlen2
  obtain ⟨hin1, hout1⟩ := GemmInv_F_positions h Ax Arows Acols Bx Brows Bcols Sx h1 hinv1
  obtain ⟨hin3, _⟩ := GemmInv_F_positions h2 Ax Arows Acols Bx Brows Bcols Sx h3 hinv3
  obtain ⟨hfr, hlen, _, _⟩ := hinv1
  refine ⟨h1, h3, he1, he3, hin1, ?_, hout1, hlen, hfr Ax hA, hfr Bx hB, hfr, ?_⟩
  · intro idx hidx
    rw [hin3 idx hidx, hin1 idx hidx, gemm_entry_congr h h2 Ax Acols Bx Brows hA2 hB2]
  · intro hB0 idx hidx
    rw [hin1 idx hidx, gemm_entry, hB0, Finset.range_zero, Finset.sum_empty]

/-- C18 as amended, at concrete inputs: a `2×2` product written into buffers of five
elements with different contents and different `Srows`, `Scols`; the first
four positions receive `[19,22,43,50]` and the fifth is kept. -/
theorem gemm_F_frame_witness :
    (∃ h1 h3,
      gemm (heapOf [[1, 2, 3, 4], [5, 7, 6, 8], ([9, 9, 9, 9, 9] : List Int)])
        0 2 2 'N' 1 2 2 'N' 2 2 2 'F' = some h1
      ∧ gemm (heapOf [[1, 2, 3, 4], [5, 7, 6, 8], ([0, 1, 2, 3, 4] : List Int)])
        0 2 2 'N' 1 2 2 'N' 2 7 1 'F' = some h3
      ∧ (∀ idx, idx < 2 * 2 →
          (h1 2)[idx]? = some (gemm_entry
            (heapOf [[1, 2, 3, 4], [5, 7, 6, 8], ([9, 9, 9, 9, 9] : List Int)])
            0 2 1 2 (idx / 2) (idx % 2)))
      ∧ (∀ idx, idx < 2 * 2 → (h3 2)[idx]? = (h1 2)[idx]?)
      ∧ (∀ idx, 2 * 2 ≤ idx → (h1 2)[idx]?
          = (heapOf [[1, 2, 3, 4], [5, 7, 6, 8], ([9, 9, 9, 9, 9] : List Int)] 2)[idx]?)
      ∧ (h1 2).length
          = (heapOf [[1, 2, 3, 4], [5, 7, 6, 8], ([9, 9, 9, 9, 9] : List Int)] 2).length
      ∧ h1 0 = heapOf [[1, 2, 3, 4], [5, 7, 6, 8], ([9, 9, 9, 9, 9] : List Int)] 0
      ∧ h1 1 = heapOf [[1, 2, 3, 4], [5, 7, 6, 8], ([9, 9, 9, 9, 9] : List Int)] 1
      ∧ (∀ p, p ≠ 2 →
          h1 p = heapOf [[1, 2, 3, 4], [5, 7, 6, 8], ([9, 9, 9, 9, 9] : List Int)] p)
      ∧ (2 = 0 → ∀ idx, idx < 2 * 2 → (h1 2)[idx]? = some 0))
    ∧ (gemm (heapOf [[1, 2, 3, 4], [5, 7, 6, 8], ([9, 9, 9, 9, 9] : List Int)])
        0 2 2 'N' 1 2 2 'N' 2 2 2 'F').map (fun h1 => h1 2) = some [19, 22, 43, 50, 9]
    ∧ (gemm (heapOf [[1, 2, 3, 4], [5, 7, 6, 8], ([0, 1, 2, 3, 4] : List Int)])
        0 2 2 'N' 1 2 2 'N' 2 7 1 'F').map (fun h1 => h1 2) = some [19, 22, 43, 50, 4] :=
  ⟨gemm_F_frame (heapOf [[1, 2, 3, 4], [5, 7, 6, 8], ([9, 9, 9, 9, 9] : List Int)])
      (heapOf [[1, 2, 3, 4], [5, 7, 6, 8], ([0, 1, 2, 3, 4] : List Int)])
      0 2 2 'N' 1 2 2 'N' 2 2 2 7 1 (by decide) (by decide) (by decide) (by decide)
      (by decide) rfl rfl (by decide),
    by decide, by decide⟩

/-- C18 as stated fails when the output buffer is an operand. With
`Ax = [1,2,3,4]`, `Bx = [5,7,6,8]`, all dimensions `2` and `Sx` the buffer `Ax`
itself, every access is in bounds and the call with `Strans = 'F'` is defined,
but `Ax` is not left unchanged: it holds `[14,756,28,1512]` afterwards. -/
theorem gemm_F_output_is_operand :
    (gemm (heapOf [[1, 2, 3, 4], ([5, 7, 6, 8] : List Int)])
        0 2 2 'N' 1 2 2 'N' 0 2 2 'F').map (fun h1 => (h1 0, h1 1))
        = some ([14, 756, 28, 1512], [5, 7, 6, 8])
      ∧ heapOf [[1, 2, 3, 4], ([5, 7, 6, 8] : List Int)] 0 = [1, 2, 3, 4]
      ∧ ¬ (∃ h1, gemm (heapOf [[1, 2, 3, 4], ([5, 7, 6, 8] : List Int)])
              0 2 2 'N' 1 2 2 'N' 0 2 2 'F' = some h1
            ∧ h1 0 = heapOf [[1, 2, 3, 4], ([5, 7, 6, 8] : List Int)] 0) := by
  have hrun : (gemm (heapOf [[1, 2, 3, 4], ([5, 7, 6, 8] : List Int)])
      0 2 2 'N' 1 2 2 'N' 0 2 2 'F').map (fun h1 => (h1 0, h1 1))
      = some ([14, 756, 28, 1512], [5, 7, 6, 8]) := by
    decide
  refine ⟨hrun, rfl, ?_⟩
  rintro ⟨h1, he, hsame⟩
  rw [he] at hrun
  have h0 : h1 0 = [14, 756, 28, 1512] := by
    have := hrun
    simp only [Option.map_some', Option.some.injEq, Prod.mk.injEq] at this
    exact this.1
  rw [h0] at hsame
  simp [heapOf] at hsame

/-- C14: the branch `Strans = 'T'` is not a transpose-of-output convention for
non-square results when `S` is described by the dimensions of the product.
There are conformant inputs with `Arows != Bcols`, `Srows = Arows`,
`Scols = Bcols` and buffers of exactly `Arows*Acols`, `Brows*Bcols` and
`Arows*Bcols` elements on which the call writes outside `Sx` (it is
undefined); with `Arows = 1`, `Bcols = 2` and a third element of room the call
writes `Sx[0]` and `Sx[2]` and never `Sx[1]`, while the transpose of the
product `[19,22]` occupies positions `0` and `1`. For square results
(`Arows = Bcols = Scols`) the call is defined and `Sx[j*Arows + i]` is the
entry of row `i` and column `j` of `A·B`. -/
theorem gemm_T_nonsquare {T : Type} [Semiring T] :
    (∃ (h : Heap Int) (Ax Bx Sx : Ptr) (Arows Acols Brows Bcols : Nat),
        Ax ≠ Sx ∧ Bx ≠ Sx ∧ Brows = Acols ∧ Arows ≠ Bcols
        ∧ (h Ax).length = Arows * Acols ∧ (h Bx).length = Brows * Bcols
        ∧ (h Sx).length = Arows * Bcols
        ∧ gemm h Ax Arows Acols 'N' Bx Brows Bcols 'N' Sx Arows Bcols 'T' = none)
      ∧ (gemm (heapOf [[1, 2], [5, 7, 6, 8], ([9, 9, 9] : List Int)])
          0 1 2 'N' 1 2 2 'N' 2 1 2 'T').map (fun h1 => h1 2) = some [19, 9, 22]
      ∧ (gemm (heapOf [[1, 2], [5, 7, 6, 8], ([9, 9, 9] : List Int)])
          0 1 2 'N' 1 2 2 'N' 2 1 2 'F').map (fun h1 => h1 2) = some [19, 22, 9]
      ∧ (∀ (h : Heap T) (Ax : Ptr) (Arows Acols : Nat) (Atrans : Char) (Bx : Ptr)
          (Brows Bcols : Nat) (Btrans : Char) (Sx : Ptr) (Srows Scols : Nat),
          Ax ≠ Sx → Bx ≠ Sx → Brows = Acols → Bcols = Arows → Scols = Arows →
          Arows * Acols ≤ (h Ax).length → Brows * Bcols ≤ (h Bx).length →
          Arows * Bcols ≤ (h Sx).length →
          ∃ hT, gemm h Ax Arows Acols Atrans Bx Brows Bcols Btrans Sx Srows Scols 'T' = some hT
            ∧ ∀ i j, i < Arows → j < Bcols →
                (hT Sx)[j * Arows + i]?
                  = some (∑ k in Finset.range Acols,
                      h.elem Ax (i * Acols + k) * h.elem Bx (j * Brows + k))) := by
  refine ⟨⟨heapOf [[1, 2], [5, 7, 6, 8], [9, 9]], 0, 1, 2, 1, 2, 2, 2, by decide, by decide,
    rfl, by decide, by decide, by decide, by decide, by rfl⟩, by decide, by decide, ?_⟩
  intro h Ax Arows Acols Atrans Bx Brows Bcols Btrans Sx Srows Scols hA hB hconf _ hScols hAx
    hBx hSx
  obtain ⟨hT, heT, _, _, hvalT, _⟩ :=
    gemm_T_spec h Ax Arows Acols Atrans Bx Brows Bcols Btrans Sx Srows Scols hA hB
      (by omega) (gemm_A_rows_fit h Ax Arows Acols Brows hconf hAx) hBx
      (by rw [hScols, Nat.mul_comm]; exact hSx)
  refine ⟨hT, heT, ?_⟩
  intro i j hi hj
  have hT1 := hvalT i j hj (Or.inl hi)
  simp only [hScols] at hT1
  rw [Nat.add_comm] at hT1
  rw [hT1, gemm_entry, hconf]

/-- C14, the square case at a concrete input: a `2×2` product, `Sx` receives
`[19,43,22,50]`, the transpose of `[[19,22],[43,50]]`. -/
theorem gemm_T_nonsquare_witness :
    (∃ hT, gemm (heapOf [[1, 2, 3, 4], [5, 7, 6, 8], ([9, 9, 9, 9] : List Int)])
        0 2 2 'N' 1 2 2 'N' 2 2 2 'T' = some hT
      ∧ ∀ i j, i < 2 → j < 2 →
          (hT 2)[j * 2 + i]?
            = some (∑ k in Finset.range 2,
                (heapOf [[1, 2, 3, 4], [5, 7, 6, 8], ([9, 9, 9, 9] : List Int)]).elem 0 (i * 2 + k)
                * (heapOf [[1, 2, 3, 4], [5, 7, 6, 8], ([9, 9, 9, 9] : List Int)]).elem 1
                    (j * 2 + k)))
    ∧ (gemm (heapOf [[1, 2, 3, 4], [5, 7, 6, 8], ([9, 9, 9, 9] : List Int)])
        0 2 2 'N' 1 2 2 'N' 2 2 2 'T').map (fun h1 => h1 2) = some [19, 43, 22, 50] :=
  ⟨(gemm_T_nonsquare (T := Int)).2.2.2
      (heapOf [[1, 2, 3, 4], [5, 7, 6, 8], ([9, 9, 9, 9] : List Int)])
      0 2 2 'N' 1 2 2 'N' 2 2 2 (by decide) (by decide) rfl rfl rfl (by decide) (by decide)
      (by decide),
    by decide⟩

end Linalg
